import Mathlib

/-!
Verification of the mc-packer version-constraint engine, dependency-graph
merge operations, fault-isolation bisection and mod loading/validation,
shallowly embedded from `version.py`, `eliminate.py` and `mod_info.py`.
Strings are modelled as `List Char`; Python exceptions as `Except PyErr`;
loops whose termination depends on mutation patterns are modelled with
explicit fuel so that divergence is observable.
-/

namespace MCPacker

/-! ## Python string primitives -/

/-- The single-quote character, used inside rendered error messages. -/
def sq : Char := Char.ofNat 39

/-- Python `str.lower()` restricted to ASCII, which is all the code relies on. -/
def pyLower (s : List Char) : List Char :=
  s.map fun c => if 'A' ≤ c ∧ c ≤ 'Z' then Char.ofNat (c.toNat + 32) else c

/-- Worker for `strReplace`; the fuel starts at the length of the string and
each step consumes at least one character, so it never runs out. -/
def strReplaceGo (old new : List Char) : Nat → List Char → List Char
  | 0, s => s
  | _ + 1, [] => []
  | fuel + 1, c :: rest =>
    if old.isPrefixOf (c :: rest) then
      new ++ strReplaceGo old new fuel (rest.drop (old.length - 1))
    else
      c :: strReplaceGo old new fuel rest

/-- Python `s.replace(old, new)`: non-overlapping replacement left to right,
scanning resumes after the inserted text. -/
def strReplace (old new s : List Char) : List Char :=
  if old = [] then s else strReplaceGo old new s.length s

/-- Python `s.split(sep)` for a one-character separator; keeps empty pieces. -/
def splitOnChar (sep : Char) (s : List Char) : List (List Char) :=
  match s with
  | [] => [[]]
  | c :: rest =>
    let r := splitOnChar sep rest
    if c = sep then [] :: r
    else
      match r with
      | [] => [[c]]
      | p :: ps => (c :: p) :: ps

/-- Python `s.endswith(suffix)`. -/
def endsWithL (suffix s : List Char) : Bool :=
  suffix.isSuffixOf s

/-- Python `s.removesuffix(suffix)` (the caller checks `endswith` first). -/
def removeSuffixL (suffix s : List Char) : List Char :=
  if suffix.isSuffixOf s then s.take (s.length - suffix.length) else s

/-- Python `s.strip()` (whitespace on both ends). -/
def pyStrip (s : List Char) : List Char :=
  ((s.dropWhile Char.isWhitespace).reverse.dropWhile Char.isWhitespace).reverse

/-- Python `s.strip(chars)`: remove any of `chars` from both ends. -/
def pyStripChars (chars s : List Char) : List Char :=
  ((s.dropWhile (chars.contains ·)).reverse.dropWhile (chars.contains ·)).reverse

/-- Substring test, Python `pat in s`. -/
def containsSub (pat : List Char) : List Char → Bool
  | [] => pat.isPrefixOf []
  | c :: rest => pat.isPrefixOf (c :: rest) || containsSub pat rest

/-- Decimal digits of a nat (fuel-based; the fuel never runs out since
`n / 10 < n` for positive `n`). -/
def natDigitsGo : Nat → Nat → List Char
  | 0, n => [Char.ofNat (48 + n % 10)]
  | fuel + 1, n =>
    if n < 10 then [Char.ofNat (48 + n)]
    else natDigitsGo fuel (n / 10) ++ [Char.ofNat (48 + n % 10)]

/-- Python `str(n)` for a nat. -/
def natDigits (n : Nat) : List Char := natDigitsGo n n

/-- Python `int(x)` on a run of decimal digits. -/
def natOfDigits (s : List Char) : Nat :=
  s.foldl (fun acc c => 10 * acc + (c.toNat - 48)) 0

/-- `'a' ≤ c ≤ 'z'`, the regex class `[a-z]`. -/
def isLowerAlpha (c : Char) : Bool := 'a' ≤ c && c ≤ 'z'

/-- `'A' ≤ c ≤ 'Z'`, the regex class `[A-Z]`. -/
def isUpperAlpha (c : Char) : Bool := 'A' ≤ c && c ≤ 'Z'

/-! ## Exceptions (`version.py` lines 9-10 and Python builtins) -/

/-- The exceptions that can escape the embedded functions. -/
inductive PyErr where
  | badVersionString (msg : List Char)
  | valueError (msg : List Char)
  | keyError (msg : List Char)
deriving Repr, DecidableEq

/-! ## Version data model (`version.py`) -/

/-- `VersionPart`: an ordered sequence of numeric components
(`version.py` lines 14-16).  Parsing only ever produces non-negative
components, so they are `Nat`s. -/
structure VersionPart where
  components : List Nat
deriving Repr, DecidableEq

/-- `Version`: the (normalized) text together with the parsed parts
(`version.py` lines 74-77); the wildcard is `text = "*"` with no parts. -/
structure Version where
  text : List Char
  parts : List VersionPart
deriving Repr, DecidableEq

/-- `VERSION_DELIMITERS` (`version.py` line 12). -/
def VERSION_DELIMITERS : List Char := ['+', '_', ':']

/-- The regex `(?!\.)[0-9]*[a-z]+[0-9a-z]*$` under `re.fullmatch`: the
candidate consists of digits and lowercase letters only and contains at
least one letter (the leading-digits/letters/alnum split always exists in
that case, and the lookahead is vacuous since `.` is in no class). -/
def isTextOnlyCandidate (c : List Char) : Bool :=
  !c.isEmpty && c.all (fun ch => ch.isDigit || isLowerAlpha ch) && c.any isLowerAlpha

/-- The regex `^[a-z0-9.]+$` under `re.fullmatch`. -/
def isVersionCandidate (c : List Char) : Bool :=
  !c.isEmpty && c.all (fun ch => isLowerAlpha ch || ch.isDigit || ch = '.')

/-- `re.findall(r'[.]*([a-z]+[.]+)', candidate)`: every maximal lowercase
letter run that is immediately followed by a run of dots, captured together
with those dots (fuel-based scan; fuel = length suffices as every step
consumes at least one character). -/
def findWordsDotsGo : Nat → List Char → List (List Char)
  | 0, _ => []
  | _ + 1, [] => []
  | fuel + 1, ch :: rest =>
    if isLowerAlpha ch then
      let letters := ch :: rest.takeWhile isLowerAlpha
      let after := rest.dropWhile isLowerAlpha
      let dots := after.takeWhile (· = '.')
      if dots.isEmpty then findWordsDotsGo fuel after
      else (letters ++ dots) :: findWordsDotsGo fuel (after.dropWhile (· = '.'))
    else findWordsDotsGo fuel rest

/-- See `findWordsDotsGo`. -/
def findWordsDots (c : List Char) : List (List Char) :=
  findWordsDotsGo c.length c

/-- `re.findall(r'[0-9]([a-z])', candidate)`: the captured letters of the
non-overlapping digit-letter pairs, scanning left to right. -/
def findDigitLetter : List Char → List Char
  | [] => []
  | [_] => []
  | a :: b :: rest =>
    if a.isDigit && isLowerAlpha b then b :: findDigitLetter rest
    else findDigitLetter (b :: rest)

/-- `ord(letter) - ord('a') + 1`. -/
def letterIdx (c : Char) : Nat := c.toNat - 96

/-- The body of the candidate loop of `Version.fromString`
(`version.py` lines 107-131): `None` when the candidate is skipped,
otherwise the cleaned candidate text. -/
def processCandidate (c : List Char) : Option (List Char) :=
  if c = [] then none
  else if isTextOnlyCandidate c then none
  else if isVersionCandidate c then
    let c1 := (findWordsDots c).foldl (fun s w => strReplace w [] s) c
    let c2 := (findDigitLetter c1).foldl
      (fun s l => strReplace [l] ('.' :: natDigits (letterIdx l)) s) c1
    let c3 := (c2.filter isLowerAlpha).foldl
      (fun s l => strReplace [l] (natDigits (letterIdx l)) s) c2
    some c3
  else none

/-- `Version.fromString` (`version.py` lines 88-136). -/
def versionFromString (text_raw : List Char) : Except PyErr Version :=
  if text_raw = [] ∨ text_raw = ['*'] then
    .ok ⟨['*'], []⟩
  else
    let text := pyLower text_raw
    let text := strReplace "alpha".data "0".data text
    let text := strReplace "beta".data "1".data text
    let text := strReplace "pre-release".data "2".data text
    let text := strReplace "pre".data "2".data text
    let text := strReplace "rc".data "2".data text
    let text := strReplace "snapshot".data "2".data text
    let text := strReplace "release".data "3".data text
    let text := VERSION_DELIMITERS.foldl (fun t d => strReplace [d] ['-'] t) text
    let part_candidates := splitOnChar '-' text
    let valid_parts := part_candidates.filterMap processCandidate
    if valid_parts.isEmpty then
      .error (.badVersionString ("Invalid version string ".data ++ sq :: text ++ [sq]))
    else
      .ok ⟨text, valid_parts.map fun comps =>
        ⟨((splitOnChar '.' comps).filter (· ≠ [])).map natOfDigits⟩⟩

/-! ### Comparison operators

Each of the Python comparison loops iterates index `i` over
`range(max(len a, len b))`, reading `0` (resp. `VersionPart([0])`) for a
missing entry and deciding at the first strictly ordered pair.  They are
translated as simultaneous recursion over the two lists. -/

/-- The tail of each `VersionPart` comparison loop once `self` is exhausted:
every remaining index reads `a = 0` against the other part's component. -/
def vpLtNil : List Nat → Bool
  | [] => false
  | b :: bs => if 0 < b then true else if b < 0 then false else vpLtNil bs

/-- See `vpLtNil`. -/
def vpEqNil : List Nat → Bool
  | [] => true
  | b :: bs => if 0 < b then false else if b < 0 then false else vpEqNil bs

/-- See `vpLtNil`. -/
def vpLeNil : List Nat → Bool
  | [] => true
  | b :: bs => if 0 < b then true else if b < 0 then false else vpLeNil bs

/-- See `vpLtNil`. -/
def vpGtNil : List Nat → Bool
  | [] => false
  | b :: bs => if b < 0 then true else if 0 < b then false else vpGtNil bs

/-- See `vpLtNil`. -/
def vpGeNil : List Nat → Bool
  | [] => true
  | b :: bs => if b < 0 then true else if 0 < b then false else vpGeNil bs

/-- `VersionPart.__lt__` (`version.py` lines 34-42). -/
def vpLtAux : List Nat → List Nat → Bool
  | [], bs => vpLtNil bs
  | a :: as', [] => if a < 0 then true else if 0 < a then false else vpLtAux as' []
  | a :: as', b :: bs => if a < b then true else if b < a then false else vpLtAux as' bs

/-- `VersionPart.__eq__` (`version.py` lines 24-32). -/
def vpEqAux : List Nat → List Nat → Bool
  | [], bs => vpEqNil bs
  | a :: as', [] => if a < 0 then false else if 0 < a then false else vpEqAux as' []
  | a :: as', b :: bs => if a < b then false else if b < a then false else vpEqAux as' bs

/-- `VersionPart.__le__` (`version.py` lines 44-52). -/
def vpLeAux : List Nat → List Nat → Bool
  | [], bs => vpLeNil bs
  | a :: as', [] => if a < 0 then true else if 0 < a then false else vpLeAux as' []
  | a :: as', b :: bs => if a < b then true else if b < a then false else vpLeAux as' bs

/-- `VersionPart.__gt__` (`version.py` lines 54-62). -/
def vpGtAux : List Nat → List Nat → Bool
  | [], bs => vpGtNil bs
  | a :: as', [] => if 0 < a then true else if a < 0 then false else vpGtAux as' []
  | a :: as', b :: bs => if b < a then true else if a < b then false else vpGtAux as' bs

/-- `VersionPart.__ge__` (`version.py` lines 64-72). -/
def vpGeAux : List Nat → List Nat → Bool
  | [], bs => vpGeNil bs
  | a :: as', [] => if 0 < a then true else if a < 0 then false else vpGeAux as' []
  | a :: as', b :: bs => if b < a then true else if a < b then false else vpGeAux as' bs

/-- `VersionPart.__lt__` lifted to records. -/
def vpLt (a b : VersionPart) : Bool := vpLtAux a.components b.components

/-- `VersionPart.__eq__` lifted to records. -/
def vpEq (a b : VersionPart) : Bool := vpEqAux a.components b.components

/-- `VersionPart.__le__` lifted to records. -/
def vpLe (a b : VersionPart) : Bool := vpLeAux a.components b.components

/-- `VersionPart.__gt__` lifted to records. -/
def vpGt (a b : VersionPart) : Bool := vpGtAux a.components b.components

/-- `VersionPart.__ge__` lifted to records. -/
def vpGe (a b : VersionPart) : Bool := vpGeAux a.components b.components

/-- The padding element `VersionPart([0])` used by the `Version` loops. -/
def zeroPart : VersionPart := ⟨[0]⟩

/-- The tail of each `Version` comparison loop once `self` is exhausted:
every remaining index reads `a = VersionPart([0])`. -/
def verLtNil : List VersionPart → Bool
  | [] => false
  | b :: bs => if vpLt zeroPart b then true else if vpGt zeroPart b then false else verLtNil bs

/-- See `verLtNil`. -/
def verEqNil : List VersionPart → Bool
  | [] => true
  | b :: bs => if vpLt zeroPart b then false else if vpGt zeroPart b then false else verEqNil bs

/-- See `verLtNil`. -/
def verLeNil : List VersionPart → Bool
  | [] => true
  | b :: bs => if vpLt zeroPart b then true else if vpGt zeroPart b then false else verLeNil bs

/-- See `verLtNil`. -/
def verGtNil : List VersionPart → Bool
  | [] => false
  | b :: bs => if vpGt zeroPart b then true else if vpLt zeroPart b then false else verGtNil bs

/-- See `verLtNil`. -/
def verGeNil : List VersionPart → Bool
  | [] => true
  | b :: bs => if vpGt zeroPart b then true else if vpLt zeroPart b then false else verGeNil bs

/-- `Version.__lt__` (`version.py` lines 148-156). -/
def verLtAux : List VersionPart → List VersionPart → Bool
  | [], bs => verLtNil bs
  | a :: as', [] =>
    if vpLt a zeroPart then true else if vpGt a zeroPart then false else verLtAux as' []
  | a :: as', b :: bs =>
    if vpLt a b then true else if vpGt a b then false else verLtAux as' bs

/-- `Version.__eq__` (`version.py` lines 138-146). -/
def verEqAux : List VersionPart → List VersionPart → Bool
  | [], bs => verEqNil bs
  | a :: as', [] =>
    if vpLt a zeroPart then false else if vpGt a zeroPart then false else verEqAux as' []
  | a :: as', b :: bs =>
    if vpLt a b then false else if vpGt a b then false else verEqAux as' bs

/-- `Version.__le__` (`version.py` lines 158-166). -/
def verLeAux : List VersionPart → List VersionPart → Bool
  | [], bs => verLeNil bs
  | a :: as', [] =>
    if vpLt a zeroPart then true else if vpGt a zeroPart then false else verLeAux as' []
  | a :: as', b :: bs =>
    if vpLt a b then true else if vpGt a b then false else verLeAux as' bs

/-- `Version.__gt__` (`version.py` lines 168-176). -/
def verGtAux : List VersionPart → List VersionPart → Bool
  | [], bs => verGtNil bs
  | a :: as', [] =>
    if vpGt a zeroPart then true else if vpLt a zeroPart then false else verGtAux as' []
  | a :: as', b :: bs =>
    if vpGt a b then true else if vpLt a b then false else verGtAux as' bs

/-- `Version.__ge__` (`version.py` lines 178-186). -/
def verGeAux : List VersionPart → List VersionPart → Bool
  | [], bs => verGeNil bs
  | a :: as', [] =>
    if vpGt a zeroPart then true else if vpLt a zeroPart then false else verGeAux as' []
  | a :: as', b :: bs =>
    if vpGt a b then true else if vpLt a b then false else verGeAux as' bs

/-- `Version.__lt__` lifted to records. -/
def verLt (a b : Version) : Bool := verLtAux a.parts b.parts

/-- `Version.__eq__` lifted to records. -/
def verEq (a b : Version) : Bool := verEqAux a.parts b.parts

/-- `Version.__le__` lifted to records. -/
def verLe (a b : Version) : Bool := verLeAux a.parts b.parts

/-- `Version.__gt__` lifted to records. -/
def verGt (a b : Version) : Bool := verGtAux a.parts b.parts

/-- `Version.__ge__` lifted to records. -/
def verGe (a b : Version) : Bool := verGeAux a.parts b.parts

/-! ### Three-way comparator view of the comparison loops

All ten comparison loops scan the two lists in step, padding the shorter
one, and decide at the first strictly ordered pair; they are therefore all
determined by one `Ordering`-valued comparator, which is the form the order
theory is proved in. -/

/-- Three-way comparison of naturals. -/
def natCmp (a b : Nat) : Ordering :=
  if a < b then .lt else if b < a then .gt else .eq

/-- The padded comparison once the left list is exhausted. -/
def cmpNilPad (cmp : α → α → Ordering) (pad : α) : List α → Ordering
  | [] => .eq
  | b :: bs =>
    match cmp pad b with
    | .eq => cmpNilPad cmp pad bs
    | o => o

/-- Zero-padded pairwise comparison: the shared loop shape of the Python
comparison operators, with `pad` read for the missing entries. -/
def cmpPadded (cmp : α → α → Ordering) (pad : α) : List α → List α → Ordering
  | [], bs => cmpNilPad cmp pad bs
  | a :: as', [] =>
    match cmp a pad with
    | .eq => cmpPadded cmp pad as' []
    | o => o
  | a :: as', b :: bs =>
    match cmp a b with
    | .eq => cmpPadded cmp pad as' bs
    | o => o

/-- Plain lexicographic comparison (no padding), used to prove the order
laws of `cmpPadded` on lists padded to equal length. -/
def lexCmp (cmp : α → α → Ordering) : List α → List α → Ordering
  | [], [] => .eq
  | [], _ :: _ => .lt
  | _ :: _, [] => .gt
  | a :: as', b :: bs =>
    match cmp a b with
    | .eq => lexCmp cmp as' bs
    | o => o

/-- Pad a list with `pad` up to length `n`. -/
def padTo (pad : α) (n : Nat) (l : List α) : List α :=
  l ++ List.replicate (n - l.length) pad

/-- The comparator underlying the `VersionPart` operators. -/
def pcmp (a b : VersionPart) : Ordering :=
  cmpPadded natCmp 0 a.components b.components

/-- The comparator underlying the `Version` operators. -/
def vcmp (a b : Version) : Ordering :=
  cmpPadded pcmp zeroPart a.parts b.parts

/-- Total accessor for a version that is known to parse. -/
def parseVer (s : String) : Version :=
  match versionFromString s.data with
  | .ok v => v
  | .error _ => ⟨[], []⟩

/-! ## Version ranges (`version.py` lines 188-263) -/

/-- `VersionRangePart` (`version.py` lines 188-191). -/
structure VersionRangePart where
  bound : Version
  inclusive : Bool
deriving Repr, DecidableEq

/-- `VersionRange` (`version.py` lines 193-196). -/
structure VersionRange where
  lower : VersionRangePart
  upper : VersionRangePart
deriving Repr, DecidableEq

/-- `VersionRange.contains` (`version.py` lines 207-228). -/
def VersionRange.contains (r : VersionRange) (version : Version) : Bool :=
  let result := true
  let result :=
    if r.lower.bound.text = ['*'] then result
    else if r.lower.inclusive then result && verLe r.lower.bound version
    else result && verLt r.lower.bound version
  let result :=
    if r.upper.bound.text = ['*'] then result
    else if r.upper.inclusive then result && verGe r.upper.bound version
    else result && verGt r.upper.bound version
  result

/-- The regex `^[a-zA-Z0-9-+:_.]+$` under `re.fullmatch` (the `-` after the
`0-9` range is literal): a non-empty run of ASCII alphanumerics or
`-`, `+`, `:`, `_`, `.`. -/
def isBareToken (s : List Char) : Bool :=
  !s.isEmpty && s.all fun c =>
    isLowerAlpha c || isUpperAlpha c || c.isDigit ||
      c = '-' || c = '+' || c = ':' || c = '_' || c = '.'

/-- The inner character class of `([\[\(][0-9a-zA-Z+-_:., ]*[\]\)])`: note
that `+-_` is the character RANGE from `'+'` (43) to `'_'` (95), which
includes `[`, `]` and `\` among others, plus the listed singletons. -/
def isRangeClassChar (c : Char) : Bool :=
  c.isDigit || isLowerAlpha c || isUpperAlpha c ||
    ('+' ≤ c && c ≤ '_') || c = ':' || c = '.' || c = ',' || c = ' '

/-- Greedy close for the bracket-expression regex: given the characters after
an opener, the largest `t` not exceeding the maximal class-character run such
that the character at position `t` is `]` or `)` — exactly what backtracking
from the greedy `[...]*` yields. -/
def greedyClose (full : List Char) : Option Nat :=
  let m := (full.takeWhile isRangeClassChar).length
  (List.range (m + 1)).reverse.findSome? fun t =>
    match full[t]? with
    | some c => if c = ']' ∨ c = ')' then some t else none
    | none => none

/-- `re.findall(r'([\[\(][0-9a-zA-Z+-_:., ]*[\]\)])', s)`: leftmost,
non-overlapping matches; scanning advances one character when no match
starts at the current position (fuel = length suffices: each step consumes
at least one character). -/
def findBracketExprsGo : Nat → List Char → List (List Char)
  | 0, _ => []
  | _ + 1, [] => []
  | fuel + 1, c :: rest =>
    if c = '[' ∨ c = '(' then
      match greedyClose rest with
      | some t =>
        (c :: (rest.take t ++ [rest.getD t ' '])) :: findBracketExprsGo fuel (rest.drop (t + 1))
      | none => findBracketExprsGo fuel rest
    else findBracketExprsGo fuel rest

/-- See `findBracketExprsGo`. -/
def findBracketExprs (s : List Char) : List (List Char) :=
  findBracketExprsGo s.length s

/-- The loop body of `VersionRange.fromString` for one matched bracket
expression (`version.py` lines 243-258). -/
def parseBracketRange (range : List Char) : Except PyErr VersionRange := do
  let parts := splitOnChar ',' range
  let lower := pyStrip (parts.getD 0 [])
  let upper := if parts.length > 1 then pyStrip (parts.getD 1 []) else lower
  let lower := if lower = ['('] ∨ lower = ['['] then lower ++ ['*'] else lower
  let upper := if upper = [']'] ∨ upper = [')'] then '*' :: upper else upper
  let lb ← versionFromString (pyStripChars "[]()".data lower)
  let lower_part : VersionRangePart := ⟨lb, lower.getD 0 ' ' = '['⟩
  let ub ← versionFromString (pyStripChars "[]()".data upper)
  let upper_part : VersionRangePart := ⟨ub, upper.getLastD ' ' = ']'⟩
  return ⟨lower_part, upper_part⟩

/-- `VersionRange.fromString` (`version.py` lines 230-263). -/
def rangeFromString (range_raw : List Char) : Except PyErr (List VersionRange) :=
  if range_raw = "*".data ∨ range_raw = ",".data then do
    let v ← versionFromString "*".data
    return [⟨⟨v, true⟩, ⟨v, true⟩⟩]
  else if isBareToken range_raw then do
    let v ← versionFromString range_raw
    let vrp : VersionRangePart := ⟨v, true⟩
    return [⟨vrp, vrp⟩]
  else do
    let found := findBracketExprs range_raw
    let ranges ← found.mapM parseBracketRange
    if found.isEmpty then
      .error (.badVersionString ("Could not form from ".data ++ sq :: range_raw ++ [sq]))
    else
      return ranges

/-! ### Spec-side bound predicates for `contains` (for claim C8) -/

/-- Modelled from the spec: "v satisfies the lower bound (`<=` or `<` per
inclusivity, skipped if wildcard)". -/
def lowerBoundOk (r : VersionRange) (v : Version) : Bool :=
  if r.lower.bound.text = ['*'] then true
  else if r.lower.inclusive then verLe r.lower.bound v
  else verLt r.lower.bound v

/-- Modelled from the spec: "v satisfies the upper bound (`>=` or `>` per
inclusivity, skipped if wildcard)". -/
def upperBoundOk (r : VersionRange) (v : Version) : Bool :=
  if r.upper.bound.text = ['*'] then true
  else if r.upper.inclusive then verGe r.upper.bound v
  else verGt r.upper.bound v

/-! ## Python `str()` rendering, as used in recorded error notes -/

/-- `sep.join(items)`. -/
def joinSep (sep : List Char) : List (List Char) → List Char
  | [] => []
  | [x] => x
  | x :: xs => x ++ sep ++ joinSep sep xs

/-- `VersionPart.__str__` (`version.py` lines 18-19). -/
def strOfVersionPart (p : VersionPart) : List Char :=
  joinSep ['.'] (p.components.map natDigits)

/-- `Version.__str__` (`version.py` lines 79-83). -/
def strOfVersion (v : Version) : List Char :=
  if v.text ≠ ['*'] then joinSep ['-'] (v.parts.map strOfVersionPart) else ['*']

/-- `VersionRange.__str__` (`version.py` lines 198-202). -/
def strOfVersionRange (r : VersionRange) : List Char :=
  if r.upper.bound.text = ['*'] ∧ r.lower.bound.text = ['*'] then ['*']
  else
    (if r.lower.inclusive then ['['] else ['(']) ++
      strOfVersion r.lower.bound ++ [','] ++ strOfVersion r.upper.bound ++
      (if r.upper.inclusive then [']'] else [')'])

/-- Python `repr` of a list of `VersionRange`s, as interpolated by f-strings. -/
def strOfRangeList (rs : List VersionRange) : List Char :=
  '[' :: (joinSep ", ".data (rs.map strOfVersionRange) ++ [']'])

/-! ## Dependencies and the installed-pack model (`mod_info.py`) -/

/-- `ModDependency` (`mod_info.py` lines 21-29) with its ranges already
parsed. -/
structure ModDependency where
  modid : List Char
  required : Bool
  version_reqs : List VersionRange
deriving Repr, DecidableEq

/-- A loaded `Mod` as `validateVersions` sees it (`mod_info.py` lines
55-67): the fields the validation pass reads or mutates. -/
structure PackMod where
  modid : List Char
  name : List Char
  filename : List Char
  version : Version
  dependencies : List ModDependency
  dependents : List ModDependency
  errors : List (List Char)
deriving Repr, DecidableEq

/-- `ModDependency.validateMod` (`mod_info.py` lines 34-40). -/
def ModDependency.validateMod (d : ModDependency) (m : PackMod) : Bool :=
  if m.modid ≠ d.modid then false
  else d.version_reqs.any fun r => r.contains m.version

/-- `ModPack` state for validation: the insertion-ordered `mods` dict and the
pack-level error list (`mod_info.py` lines 242-250). -/
structure Pack where
  mods : List PackMod
  errors : List (List Char)
deriving Repr, DecidableEq

/-- `self.mods[modid]` lookup (first — and with unique ids, only — match). -/
def lookupMod (ms : List PackMod) (id : List Char) : Option PackMod :=
  ms.find? fun m => m.modid = id

/-- In-place mutation of the dict entry for `id`. -/
def updateModEntry (ms : List PackMod) (id : List Char) (f : PackMod → PackMod) :
    List PackMod :=
  ms.map fun m => if m.modid = id then f m else m

/-- `f"'{mod.modid}' requires '{dep.version_reqs}'"` (`mod_info.py` line 311). -/
def mismatchNote (requester : List Char) (reqs : List VersionRange) : List Char :=
  sq :: (requester ++ [sq] ++ " requires ".data ++ [sq] ++ strOfRangeList reqs ++ [sq])

/-- The missing-dependency note (`mod_info.py` lines 320-323). -/
def missingNote (dep : ModDependency) : List Char :=
  "Could not find mod ".data ++ sq :: (dep.modid ++ [sq] ++ "! requirements: ".data ++
    strOfRangeList dep.version_reqs)

/-- The body of the dependency loop of `ModPack.validateVersions`
(`mod_info.py` lines 306-323); `dep.modid not in []` is always true and is
elided.  A failing check appends the mismatch note to the TARGET entry; the
reciprocal dependent edge is always appended to the target; a required
dependency that is not installed appends a note to the REQUESTER entry. -/
def processDepStep (st : List PackMod) (requester : List Char) (dep : ModDependency) :
    List PackMod :=
  match lookupMod st dep.modid with
  | some dependency =>
    let st1 :=
      if ¬ dep.validateMod dependency then
        updateModEntry st dep.modid fun m =>
          { m with errors := m.errors ++ [mismatchNote requester dep.version_reqs] }
      else st
    updateModEntry st1 dep.modid fun m =>
      { m with dependents := m.dependents ++
          [{ modid := requester, required := false, version_reqs := dep.version_reqs }] }
  | none =>
    if dep.required then
      updateModEntry st requester fun m =>
        { m with errors := m.errors ++ [missingNote dep] }
    else st

/-- The first (mutating) loop of `ModPack.validateVersions`
(`mod_info.py` lines 305-323): iterate the snapshot of mods in dict order,
threading the mutated state. -/
def validateVersionsLoop (pack0 : List PackMod) : List PackMod :=
  pack0.foldl
    (fun st m => m.dependencies.foldl (fun st2 dep => processDepStep st2 m.modid dep) st)
    pack0

/-- `ModPack.validateVersions` (`mod_info.py` lines 304-341): runs the
dependency loop, then counts mods with errors plus pack-level errors, and
returns whether that count is zero (alongside the mutated pack). -/
def validateVersions (p : Pack) : Bool × Pack :=
  let mods' := validateVersionsLoop p.mods
  let err_num := (mods'.filter fun m => m.errors.length > 0).length + p.errors.length
  (decide (err_num = 0), { mods := mods', errors := p.errors })

/-! ### Spec-side collectors for the validation pass (for claim C6) -/

/-- The (requester id, dependency) pairs in pass order. -/
def packEvents (pack0 : List PackMod) : List (List Char × ModDependency) :=
  pack0.flatMap fun m => m.dependencies.map fun d => (m.modid, d)

/-- Modelled from the spec: the error note (if any) that the event `(requester,
dep)` addresses to the mod with id `t` — a mismatch note goes to the TARGET of
an installed dependency that fails `validateMod`, a missing-dependency note
goes to the REQUESTER of a required dependency that is not installed. -/
def noteOfEvent (pack0 : List PackMod) (t : List Char) (e : List Char × ModDependency) :
    List (List Char) :=
  match lookupMod pack0 e.2.modid with
  | some dependency =>
    if e.2.modid = t ∧ ¬ e.2.validateMod dependency then
      [mismatchNote e.1 e.2.version_reqs]
    else []
  | none =>
    if e.2.required ∧ e.1 = t then [missingNote e.2] else []

/-- Modelled from the spec: the reciprocal dependent edge the event gives
to the mod with id `t` (recorded iff the target is installed, regardless of
pass/fail). -/
def depOfEvent (pack0 : List PackMod) (t : List Char) (e : List Char × ModDependency) :
    List ModDependency :=
  if e.2.modid = t ∧ (lookupMod pack0 e.2.modid).isSome then
    [{ modid := e.1, required := false, version_reqs := e.2.version_reqs }]
  else []

/-- All error notes the validation pass addresses to mod id `t`, in order. -/
def collectNotesFor (pack0 : List PackMod) (t : List Char) : List (List Char) :=
  (packEvents pack0).flatMap (noteOfEvent pack0 t)

/-- All reciprocal dependent edges the validation pass gives mod id `t`. -/
def collectDependentsFor (pack0 : List PackMod) (t : List Char) : List ModDependency :=
  (packEvents pack0).flatMap (depOfEvent pack0 t)

/-! ## The bisection search (`eliminate.py` lines 9-23) -/

/-- Python list slicing `l[a:b]` (clamping, negative indices count from the
end). -/
def pySlice (l : List α) (a b : Int) : List α :=
  let n : Int := l.length
  let norm : Int → Int := fun i => if i < 0 then max 0 (n + i) else min i n
  ((l.take (norm b).toNat).drop (norm a).toNat)

/-- The `while left < right` loop of `binaryElimination`; bounds are `Int`s
because `right` can become `-1`. -/
def binaryEliminationLoop (l : List Bool) (left right : Int) : Int :=
  if h : left < right then
    let mid := (left + right).fdiv 2
    if (pySlice l mid right).any id then
      binaryEliminationLoop l (mid + 1) right
    else
      binaryEliminationLoop l left (mid - 1)
  else right
termination_by (right - left).toNat
decreasing_by
  all_goals
    rw [Int.fdiv_eq_ediv _ (by omega)]
    omega

/-- `binaryElimination` (`eliminate.py` lines 9-23); prints are elided. -/
def binaryElimination (l : List Bool) : Int :=
  binaryEliminationLoop l 0 ((l.length : Int) - 1)

/-! ## Dependency-graph node merge (`mod_info.py` lines 186-201), claim C3 -/

/-- A `DependencyGraph.Node`: its mod set and owning graph (by id). -/
structure NodeRec where
  mod_set : Finset (List Char)
  graph : Nat
deriving DecidableEq

/-- The global picture `Node.merge` acts on: the nodes plus the
`_ALL_NODES` / `_ALL_GRAPHS` indices (`mod_info.py` lines 182-184). -/
structure NodeState where
  nodes : Nat → NodeRec
  allNodes : List Char → Nat
  allGraphs : List Char → Nat

/-- `Node.merge` (`mod_info.py` lines 196-201).  Python evaluates
`self.mod_set.union(other.mod_set)`, which returns a NEW set without
mutating `self.mod_set`, and discards the result; then re-indexes every mod
of `other` and empties `other.mod_set`. -/
def nodeMerge (st : NodeState) (a b : Nat) : NodeState :=
  let _discardedUnion := (st.nodes a).mod_set ∪ (st.nodes b).mod_set
  let bmods := (st.nodes b).mod_set
  let agraph := (st.nodes a).graph
  let st1 : NodeState :=
    { st with
      allGraphs := fun m => if m ∈ bmods then agraph else st.allGraphs m,
      allNodes := fun m => if m ∈ bmods then a else st.allNodes m }
  { st1 with nodes := Function.update st1.nodes b { st1.nodes b with mod_set := ∅ } }

/-! ## Dependency-graph merge (`mod_info.py` lines 222-229), claim C4 -/

/-- The state `DependencyGraph.merge` acts on: each graph's node list, each
node's owning graph and mod list, and the two global indices. -/
structure GraphState where
  graphNodes : Nat → List Nat
  nodeGraph : Nat → Nat
  nodeMods : Nat → List (List Char)
  allNodes : List Char → Nat
  allGraphs : List Char → Nat

/-- The body of the `for node in other.nodes` loop of
`DependencyGraph.merge`: re-index every mod of `node` to graph `a` and to
`node`, set `node.graph = a`, and append `node` to `a`'s node list. -/
def graphMergeStep (a node : Nat) (st : GraphState) : GraphState where
  graphNodes := Function.update st.graphNodes a (st.graphNodes a ++ [node])
  nodeGraph := Function.update st.nodeGraph node a
  nodeMods := st.nodeMods
  allGraphs := fun m => if m ∈ st.nodeMods node then a else st.allGraphs m
  allNodes := fun m => if m ∈ st.nodeMods node then node else st.allNodes m

/-- The `for node in other.nodes` loop of `DependencyGraph.merge`, iterated
by index over the LIVE list exactly as Python does — so when `a = b`,
appending `node` to `self.nodes` extends the iteration — with fuel making a
non-terminating run observable as `none`.  After the loop, `other.nodes`
is set to `[]`. -/
def graphMergeLoop (a b : Nat) : Nat → GraphState → Nat → Option GraphState
  | 0, _, _ => none
  | fuel + 1, st, i =>
    if h : i < (st.graphNodes b).length then
      graphMergeLoop a b fuel (graphMergeStep a ((st.graphNodes b)[i]) st) (i + 1)
    else
      some { st with graphNodes := Function.update st.graphNodes b [] }

/-- `DependencyGraph.merge` run with enough fuel for the `a ≠ b` case. -/
def graphMerge (a b : Nat) (st : GraphState) : Option GraphState :=
  graphMergeLoop a b ((st.graphNodes b).length + 1) st 0

/-- The Python call `a.merge(b)` returns (with some fuel, i.e. after finitely
many loop iterations). -/
def graphMergeTerminates (st : GraphState) (a b : Nat) : Prop :=
  ∃ fuel st', graphMergeLoop a b fuel st 0 = some st'

/-! ## `Mod.load` (`mod_info.py` lines 96-179), claim C5 -/

/-- One dependency table entry of the decoded `mods.toml`
(`dependency['modId']`, `dependency['mandatory']`,
`dependency['versionRange']`). -/
structure TomlDep where
  modId : List Char
  mandatory : Bool
  versionRange : List Char
deriving Repr, DecidableEq

/-- One `[[mods]]` entry of the decoded `mods.toml`. -/
structure TomlMod where
  modId : List Char
  version : List Char
  displayName : List Char
deriving Repr, DecidableEq

/-- The decoded `mods.toml` tree, with the parts `Mod.load` reads;
`dependencies = none` models the key being absent. -/
structure TomlData where
  mods : List TomlMod
  dependencies : Option (List (List Char × List TomlDep))
deriving Repr, DecidableEq

/-- Assignment into a string-keyed dict (later assignments override). -/
def assocSet (d : List (List Char × List Char)) (k v : List Char) :
    List (List Char × List Char) :=
  if d.any (fun p => p.1 = k) then d.map (fun p => if p.1 = k then (k, v) else p)
  else d ++ [(k, v)]

/-- `dict.get(key, "")`. -/
def assocGetD (d : List (List Char × List Char)) (k : List Char) : List Char :=
  match d.find? (fun p => p.1 = k) with
  | some p => p.2
  | none => []

/-- The manifest-parsing prologue of `Mod.load` (`mod_info.py` lines
106-114): normalize newlines, collapse blank lines, keep the lines that
split on `:` into exactly two parts. -/
def collapseNLGo : Nat → List Char → List Char
  | 0, s => s
  | fuel + 1, s =>
    if containsSub "\n\n".data s then collapseNLGo fuel (strReplace "\n\n".data "\n".data s)
    else s

/-- See `collapseNLGo`; each effective iteration shortens the string, so
fuel = length suffices. -/
def parseManifest (manifest : List Char) : List (List Char × List Char) :=
  if manifest = [] then []
  else
    let m1 := strReplace "\r\n".data "\n".data manifest
    let m2 := collapseNLGo m1.length m1
    (splitOnChar '\n' m2).foldl
      (fun d line =>
        let parts := splitOnChar ':' line
        if parts.length = 2 then assocSet d (pyStrip (parts.getD 0 [])) (pyStrip (parts.getD 1 []))
        else d)
      []

/-- `re.match(r'\${([^}]+)}', field_raw)`: the text between a leading
`$`-brace pair and the first closing brace, when the string starts that way. -/
def parseExternRef (s : List Char) : Option (List Char) :=
  match s with
  | '$' :: '{' :: rest =>
    let inner := rest.takeWhile (· ≠ '}')
    if inner ≠ [] ∧ rest.drop inner.length ≠ [] then some inner else none
  | _ => none

/-- `MANIFEST_MAPPING['file.jarVersion']` (`mod_info.py` lines 43-52). -/
def jarVersionKeys : List (List Char) :=
  ["Implementation-Version".data, "Specification-Version".data, "Manifest-Version".data]

/-- The `result = ...; if result: break` loop of the list branch of
`processExternalField`: the first non-empty lookup, or the last lookup
(which is empty) if none is. -/
def firstNonemptyLookup (manifest : List (List Char × List Char)) :
    List (List Char) → List Char
  | [] => []
  | [k] => assocGetD manifest k
  | k :: ks =>
    let r := assocGetD manifest k
    if r ≠ [] then r else firstNonemptyLookup manifest ks

/-- `processExternalField` (`mod_info.py` lines 116-144). -/
def processExternalField (manifest : List (List Char × List Char)) (field_raw : List Char) :
    Except PyErr (List Char) :=
  match parseExternRef field_raw with
  | none => .ok field_raw
  | some field =>
    if field = "file.jarVersion".data then
      let result := firstNonemptyLookup manifest jarVersionKeys
      if result = [] then
        .error (.valueError ("failed to process field value ".data ++ field_raw))
      else .ok result
    else if field = "forge_version_range".data then .ok "*".data
    else if field = "minecraft_version_range".data then .ok "*".data
    else .ok field_raw

/-- The note recorded when a dependency has an invalid version range
(`mod_info.py` lines 172-177). -/
def badRangeNote (name modId versionRange : List Char) : List Char :=
  sq :: (name ++ [sq] ++ " dependency ".data ++ [sq] ++ modId ++ [sq] ++
    " has invalid version range ".data ++ [sq] ++ versionRange ++ [sq])

/-- The `for dependency in deps[instance.modid]` loop of `Mod.load`
(`mod_info.py` lines 160-177): `BadVersionString` is caught per dependency
and recorded as a note; any other exception (such as the `ValueError` from
`processExternalField`) propagates. -/
def processTomlDeps (manifest : List (List Char × List Char)) (name : List Char) :
    List TomlDep → Except PyErr (List ModDependency × List (List Char))
  | [] => .ok ([], [])
  | d :: rest => do
    match processExternalField manifest d.versionRange with
    | .error e => .error e
    | .ok version_range =>
      match rangeFromString version_range with
      | .ok reqs => do
        let (deps, errs) ← processTomlDeps manifest name rest
        return (⟨d.modId, d.mandatory, reqs⟩ :: deps, errs)
      | .error (.badVersionString _) => do
        let (deps, errs) ← processTomlDeps manifest name rest
        return (deps, badRangeNote name d.modId d.versionRange :: errs)
      | .error e => .error e

/-- The identity/versions/dependency part of a loaded mod; `core = none`
models the `hasattr(mod, 'modid')`-visible case where no `mods` entry
existed and the attributes were never set. -/
structure LoadedCore where
  modid : List Char
  version : Version
  name : List Char
deriving Repr, DecidableEq

/-- What `Mod.load` returns. -/
structure LoadedMod where
  filename : List Char
  manifest : List (List Char × List Char)
  core : Option LoadedCore
  dependencies : List ModDependency
  errors : List (List Char)
deriving Repr, DecidableEq

/-- `Mod.load` (`mod_info.py` lines 96-179).  Note that
`len(toml_data["dependencies"])` on line 156 is evaluated BEFORE the
`"dependencies" in toml_data` test, so an absent key raises `KeyError`;
and that `Version.fromString(...)` on lines 150-152 is NOT inside any
`try`, so a malformed version text propagates out of `Mod.load`. -/
def modLoad (filename : List Char) (toml_data : TomlData) (manifest : List Char) :
    Except PyErr LoadedMod := do
  let mf := parseManifest manifest
  match toml_data.mods with
  | tmod :: _ => do
    let modid ← processExternalField mf tmod.modId
    let vtext ← processExternalField mf tmod.version
    let version ← versionFromString vtext
    let name ← processExternalField mf tmod.displayName
    match toml_data.dependencies with
    | none => .error (.keyError "dependencies".data)
    | some deptab =>
      if deptab.length > 0 then
        match deptab.find? (fun p => p.1 = modid) with
        | some (_, deplist) =>
          if deplist.length > 0 then do
            let (deps, errs) ← processTomlDeps mf name deplist
            return ⟨filename, mf, some ⟨modid, version, name⟩, deps, errs⟩
          else return ⟨filename, mf, some ⟨modid, version, name⟩, [], []⟩
        | none => return ⟨filename, mf, some ⟨modid, version, name⟩, [], []⟩
      else return ⟨filename, mf, some ⟨modid, version, name⟩, [], []⟩
  | [] => return ⟨filename, mf, none, [], []⟩

/-! ## `Mod.enable` / `Mod.disable` (`mod_info.py` lines 76-94), claim C10 -/

/-- The static shape of a pack for the enable/disable cascade: the dict keys
(`self.pack.mods`), each mod's dependency ids and dependent ids. -/
structure EnablePack where
  modIds : List (List Char)
  deps : List Char → List (List Char)
  rdeps : List Char → List (List Char)

/-- The first statement of `Mod.enable`: strip the `.disabled` suffix when
the filename ends with `.jar.disabled` (the `FileReal.rename` disk side
effect is the same renaming). -/
def enableRenameStep (st : List Char → List Char) (id : List Char) :
    List Char → List Char :=
  if endsWithL ".jar.disabled".data (st id) then
    Function.update st id (removeSuffixL ".disabled".data (st id))
  else st

/-- The first statement of `Mod.disable`: append `.disabled` when the
filename ends with `.jar`. -/
def disableRenameStep (st : List Char → List Char) (id : List Char) :
    List Char → List Char :=
  if endsWithL ".jar".data (st id) then
    Function.update st id (st id ++ ".disabled".data)
  else st

/-- `Mod.enable` (`mod_info.py` lines 76-84): rename, then — if the (new)
filename is non-empty and not `'[no file]'` — recursively enable every
installed dependency.  Fuel bounds the recursion depth (the Python recursion
can diverge on cyclic graphs). -/
def enableMod (pg : EnablePack) : Nat → (List Char → List Char) → List Char →
    Option (List Char → List Char)
  | 0, _, _ => none
  | fuel + 1, st, id =>
    let st1 := enableRenameStep st id
    if st1 id ≠ [] ∧ st1 id ≠ "[no file]".data then
      (pg.deps id).foldlM
        (fun s d => if d ∈ pg.modIds then enableMod pg fuel s d else some s) st1
    else some st1

/-- `Mod.disable` (`mod_info.py` lines 86-94): rename, then — under the same
filename guard — call `enable()` (not `disable`) on every installed
DEPENDENT. -/
def disableMod (pg : EnablePack) : Nat → (List Char → List Char) → List Char →
    Option (List Char → List Char)
  | 0, _, _ => none
  | fuel + 1, st, id =>
    let st1 := disableRenameStep st id
    if st1 id ≠ [] ∧ st1 id ≠ "[no file]".data then
      (pg.rdeps id).foldlM
        (fun s d => if d ∈ pg.modIds then enableMod pg fuel s d else some s) st1
    else some st1

/-- The reach of the enable cascade on the filename map: each mod either
keeps its filename or, if it ended in `.jar.disabled`, has the `.disabled`
suffix stripped. -/
def stRel (st st3 : List Char → List Char) : Prop :=
  ∀ y, st3 y = st y ∨
    (endsWithL ".jar.disabled".data (st y) = true ∧
     st3 y = removeSuffixL ".disabled".data (st y))

/-! ## Concrete fixtures used by the claim theorems -/

/-- Two singleton nodes 0 (mod "a", graph 0) and 1 (mod "b", graph 1), with
the indices resolving each mod to its own node/graph. -/
def c3State : NodeState where
  nodes := fun n => if n = 0 then ⟨{"a".data}, 0⟩ else if n = 1 then ⟨{"b".data}, 1⟩ else ⟨∅, n⟩
  allNodes := fun m => if m = "a".data then 0 else 1
  allGraphs := fun m => if m = "a".data then 0 else 1

/-- Graph 0 owns node 0 (mod "a"); graph 1 owns nodes 1 (mod "b") and
2 (mod "c"). -/
def c4StateAB : GraphState where
  graphNodes := fun g => if g = 0 then [0] else if g = 1 then [1, 2] else []
  nodeGraph := fun n => if n = 0 then 0 else 1
  nodeMods := fun n =>
    if n = 0 then ["a".data] else if n = 1 then ["b".data] else ["c".data]
  allNodes := fun m => if m = "a".data then 0 else if m = "b".data then 1 else 2
  allGraphs := fun m => if m = "a".data then 0 else 1

/-- A single graph 0 owning one node 0 with one mod. -/
def c4StateSelf : GraphState where
  graphNodes := fun g => if g = 0 then [0] else []
  nodeGraph := fun _ => 0
  nodeMods := fun _ => ["a".data]
  allNodes := fun _ => 0
  allGraphs := fun _ => 0

/-- Spec-side collector: the dependencies `Mod.load` keeps — those whose
(processed) range text parses. -/
def depsOfList (mf : List (List Char × List Char)) (l : List TomlDep) :
    List ModDependency :=
  l.filterMap fun d =>
    match processExternalField mf d.versionRange with
    | .ok vr =>
      match rangeFromString vr with
      | .ok reqs => some ⟨d.modId, d.mandatory, reqs⟩
      | .error _ => none
    | .error _ => none

/-- Spec-side collector: the per-dependency error notes `Mod.load` records —
one for each dependency whose (processed) range text fails to parse. -/
def errsOfList (mf : List (List Char × List Char)) (name : List Char)
    (l : List TomlDep) : List (List Char) :=
  l.filterMap fun d =>
    match processExternalField mf d.versionRange with
    | .ok vr =>
      match rangeFromString vr with
      | .ok _ => none
      | .error _ => some (badRangeNote name d.modId d.versionRange)
    | .error _ => none

/-- A manifest whose single mod entry has the unparseable version text
`"abc"`. -/
def c5BadVersionToml : TomlData :=
  ⟨[⟨"a".data, "abc".data, "A".data⟩], some []⟩

/-- A pack whose entries carry extra appended errors and dependents, as a
function of their modid — the invariant shape of the state threaded through
the `validateVersions` dependency loop. -/
def packForm (p0 : List PackMod) (E : List Char → List (List Char))
    (D : List Char → List ModDependency) : List PackMod :=
  p0.map fun m =>
    { m with errors := m.errors ++ E m.modid, dependents := m.dependents ++ D m.modid }

/-- The parsed version `1.0`. -/
def verOne : Version := ⟨"1.0".data, [⟨[1, 0]⟩]⟩

/-- The range `[1.0,*)` (as `VersionRange.fromString` parses `"[1.0,)"`). -/
def rangeFrom10 : VersionRange := ⟨⟨⟨"1.0".data, [⟨[1, 0]⟩]⟩, true⟩, ⟨⟨['*'], []⟩, false⟩⟩

/-- The range `[2.0,*)` (as `VersionRange.fromString` parses `"[2.0,)"`). -/
def rangeFrom20 : VersionRange := ⟨⟨⟨"2.0".data, [⟨[2, 0]⟩]⟩, true⟩, ⟨⟨['*'], []⟩, false⟩⟩

/-- Scenario pack: A at 1.0 with no deps, B requiring A `[1.0,*)`,
C requiring A `[2.0,*)`. -/
def c6Pack : Pack :=
  ⟨[⟨"a".data, "A".data, "a.jar".data, verOne, [], [], []⟩,
    ⟨"b".data, "B".data, "b.jar".data, verOne, [⟨"a".data, true, [rangeFrom10]⟩], [], []⟩,
    ⟨"c".data, "C".data, "c.jar".data, verOne, [⟨"a".data, true, [rangeFrom20]⟩], [], []⟩],
   []⟩

/-- Enable/disable fixture: mod `m` with installed dependents `d1`, `d2`. -/
def pg0 : EnablePack :=
  ⟨["m".data, "d1".data, "d2".data], fun _ => [],
   fun i => if i = "m".data then ["d1".data, "d2".data] else []⟩

/-- Filenames: `m` enabled, `d1` disabled, `d2` enabled. -/
def st0 : List Char → List Char := fun y =>
  if y = "m".data then "a.jar".data
  else if y = "d1".data then "b.jar.disabled".data
  else "c.jar".data

/-- The filename map after `m.disable()` in the fixture. -/
def stW : List Char → List Char :=
  (disableMod pg0 3 st0 "m".data).getD (fun _ => [])

/-! # Proof infrastructure: order theory of the padded comparators -/

theorem natCmp_eq_lt {a b : Nat} : natCmp a b = .lt ↔ a < b := by
  unfold natCmp; split <;> rename_i h
  · simp [h]
  · split <;> rename_i h2 <;> simp <;> omega

theorem natCmp_eq_gt {a b : Nat} : natCmp a b = .gt ↔ b < a := by
  unfold natCmp; split <;> rename_i h
  · simp; omega
  · split <;> rename_i h2 <;> simp <;> omega

theorem natCmp_eq_eq {a b : Nat} : natCmp a b = .eq ↔ a = b := by
  unfold natCmp; split <;> rename_i h
  · simp; omega
  · split <;> rename_i h2 <;> simp <;> omega

theorem natCmp_swap (a b : Nat) : natCmp b a = (natCmp a b).swap := by
  rcases Nat.lt_trichotomy a b with h | h | h
  · rw [natCmp_eq_lt.mpr h, natCmp_eq_gt.mpr h]; rfl
  · rw [natCmp_eq_eq.mpr h, natCmp_eq_eq.mpr h.symm]; rfl
  · rw [natCmp_eq_gt.mpr h, natCmp_eq_lt.mpr h]; rfl

theorem natCmp_congr {a b : Nat} (h : natCmp a b = .eq) (z : Nat) :
    natCmp a z = natCmp b z := by
  rw [natCmp_eq_eq.mp h]

theorem natCmp_trans_lt {a b c : Nat} (h1 : natCmp a b = .lt) (h2 : natCmp b c = .lt) :
    natCmp a c = .lt :=
  natCmp_eq_lt.mpr (Nat.lt_trans (natCmp_eq_lt.mp h1) (natCmp_eq_lt.mp h2))

/-- A comparator whose swap, congruence and transitivity laws hold, bundled
so the padded-comparison lemmas can be proved once and instantiated at both
the component level and the part level. -/
structure LawfulCmp (cmp : α → α → Ordering) : Prop where
  swap : ∀ x y, cmp y x = (cmp x y).swap
  congr : ∀ x y, cmp x y = .eq → ∀ z, cmp x z = cmp y z
  trans_lt : ∀ x y z, cmp x y = .lt → cmp y z = .lt → cmp x z = .lt

theorem LawfulCmp.refl {cmp : α → α → Ordering} (L : LawfulCmp cmp) (x : α) :
    cmp x x = .eq := by
  have h := L.swap x x
  cases hx : cmp x x <;> rw [hx] at h <;> first | rfl | exact absurd h (by decide)

theorem LawfulCmp.congr_right {cmp : α → α → Ordering} (L : LawfulCmp cmp) {x y : α}
    (h : cmp x y = .eq) (z : α) : cmp z x = cmp z y := by
  rw [L.swap x z, L.swap y z, L.congr x y h z]

theorem natCmp_lawful : LawfulCmp natCmp :=
  ⟨natCmp_swap, fun _ _ h _ => natCmp_congr h _, fun _ _ _ => natCmp_trans_lt⟩

/-! ### `lexCmp` order laws (on lists of equal length after padding) -/

theorem lexCmp_refl {cmp : α → α → Ordering} (L : LawfulCmp cmp) :
    ∀ as, lexCmp cmp as as = .eq
  | [] => rfl
  | a :: as' => by rw [lexCmp, L.refl a, lexCmp_refl L as']

theorem lexCmp_swap {cmp : α → α → Ordering} (L : LawfulCmp cmp) :
    ∀ as bs, lexCmp cmp bs as = (lexCmp cmp as bs).swap
  | [], [] => rfl
  | [], _ :: _ => rfl
  | _ :: _, [] => rfl
  | a :: as', b :: bs => by
    rw [lexCmp, lexCmp, L.swap a b]
    cases h : cmp a b <;> simp [lexCmp_swap L as' bs, Ordering.swap]

theorem lexCmp_congr {cmp : α → α → Ordering} (L : LawfulCmp cmp) :
    ∀ as bs cs, lexCmp cmp as bs = .eq → lexCmp cmp as cs = lexCmp cmp bs cs
  | [], [], _, _ => rfl
  | [], _ :: _, _, h => nomatch h
  | _ :: _, [], _, h => nomatch h
  | a :: as', b :: bs, [], _ => rfl
  | a :: as', b :: bs, c :: cs, h => by
    rw [lexCmp] at h
    cases hab : cmp a b with
    | eq =>
      rw [hab] at h
      rw [lexCmp, lexCmp, L.congr a b hab c]
      cases hbc : cmp b c with
      | eq => exact lexCmp_congr L as' bs cs h
      | lt => rfl
      | gt => rfl
    | lt => rw [hab] at h; exact nomatch h
    | gt => rw [hab] at h; exact nomatch h

theorem lexCmp_trans_lt {cmp : α → α → Ordering} (L : LawfulCmp cmp) :
    ∀ as bs cs, lexCmp cmp as bs = .lt → lexCmp cmp bs cs = .lt →
      lexCmp cmp as cs = .lt
  | [], [], cs, h1, _ => nomatch h1
  | [], _ :: _, [], _, h2 => nomatch h2
  | [], _ :: _, _ :: _, _, _ => rfl
  | _ :: _, [], cs, h1, _ => nomatch h1
  | _ :: _, _ :: _, [], _, h2 => nomatch h2
  | a :: as', b :: bs, c :: cs, h1, h2 => by
    rw [lexCmp] at h1 h2 ⊢
    cases hab : cmp a b with
    | lt =>
      rw [hab] at h1
      cases hbc : cmp b c with
      | lt => rw [L.trans_lt a b c hab hbc]
      | eq => rw [← L.congr_right hbc a, hab]
      | gt => rw [hbc] at h2; exact nomatch h2
    | eq =>
      rw [hab] at h1
      cases hbc : cmp b c with
      | lt => rw [L.congr a b hab c, hbc]
      | eq =>
        rw [hbc] at h2
        rw [L.congr a b hab c, hbc]
        exact lexCmp_trans_lt L as' bs cs h1 h2
      | gt => rw [hbc] at h2; exact nomatch h2
    | gt => rw [hab] at h1; exact nomatch h1

/-! ### Reduction of `cmpPadded` to `lexCmp` on padded lists -/

theorem lexCmp_replicate_pad {cmp : α → α → Ordering} {pad : α} (L : LawfulCmp cmp) :
    ∀ n, lexCmp cmp (List.replicate n pad) (List.replicate n pad) = .eq :=
  fun n => lexCmp_refl L _

theorem cmpNilPad_eq_lexCmp {cmp : α → α → Ordering} {pad : α} (L : LawfulCmp cmp) :
    ∀ bs n, bs.length ≤ n →
      cmpNilPad cmp pad bs = lexCmp cmp (List.replicate n pad) (padTo pad n bs)
  | [], n, _ => by
    simp [cmpNilPad, padTo, lexCmp_refl L]
  | b :: bs, n, h => by
    match n, h with
    | m + 1, h =>
      rw [cmpNilPad]
      have : padTo pad (m + 1) (b :: bs) = b :: padTo pad m bs := by
        simp [padTo, List.replicate]
      rw [this, List.replicate_succ, lexCmp]
      cases hpb : cmp pad b with
      | eq => exact cmpNilPad_eq_lexCmp L bs m (by simpa using h)
      | lt => rfl
      | gt => rfl

theorem cmpPadNil_eq_lexCmp {cmp : α → α → Ordering} {pad : α} (L : LawfulCmp cmp) :
    ∀ as n, as.length ≤ n →
      cmpPadded cmp pad as [] = lexCmp cmp (padTo pad n as) (List.replicate n pad)
  | [], n, _ => by
    simp [cmpPadded, cmpNilPad, padTo, lexCmp_refl L]
  | a :: as, n, h => by
    match n, h with
    | m + 1, h =>
      rw [cmpPadded]
      have : padTo pad (m + 1) (a :: as) = a :: padTo pad m as := by
        simp [padTo, List.replicate]
      rw [this, List.replicate_succ, lexCmp]
      cases hap : cmp a pad with
      | eq => exact cmpPadNil_eq_lexCmp L as m (by simpa using h)
      | lt => rfl
      | gt => rfl

theorem cmpPadded_eq_lexCmp {cmp : α → α → Ordering} {pad : α} (L : LawfulCmp cmp) :
    ∀ as bs n, as.length ≤ n → bs.length ≤ n →
      cmpPadded cmp pad as bs = lexCmp cmp (padTo pad n as) (padTo pad n bs)
  | [], bs, n, _, hb => by
    rw [cmpPadded]
    have : padTo pad n ([] : List α) = List.replicate n pad := by simp [padTo]
    rw [this]
    exact cmpNilPad_eq_lexCmp L bs n hb
  | a :: as, [], n, ha, _ => by
    have : padTo pad n ([] : List α) = List.replicate n pad := by simp [padTo]
    rw [this]
    exact cmpPadNil_eq_lexCmp L (a :: as) n ha
  | a :: as, b :: bs, n, ha, hb => by
    match n, ha, hb with
    | m + 1, ha, hb =>
      rw [cmpPadded]
      have h1 : padTo pad (m + 1) (a :: as) = a :: padTo pad m as := by
        simp [padTo, List.replicate]
      have h2 : padTo pad (m + 1) (b :: bs) = b :: padTo pad m bs := by
        simp [padTo, List.replicate]
      rw [h1, h2, lexCmp]
      cases hab : cmp a b with
      | eq => exact cmpPadded_eq_lexCmp L as bs m (by simpa using ha) (by simpa using hb)
      | lt => rfl
      | gt => rfl

/-! ### Order laws of `cmpPadded` -/

theorem cmpPadded_swap {cmp : α → α → Ordering} {pad : α} (L : LawfulCmp cmp)
    (as bs : List α) : cmpPadded cmp pad bs as = (cmpPadded cmp pad as bs).swap := by
  set n := max as.length bs.length with hn
  rw [cmpPadded_eq_lexCmp L bs as n (le_max_right _ _) (le_max_left _ _),
    cmpPadded_eq_lexCmp L as bs n (le_max_left _ _) (le_max_right _ _),
    lexCmp_swap L]

theorem cmpPadded_refl {cmp : α → α → Ordering} {pad : α} (L : LawfulCmp cmp)
    (as : List α) : cmpPadded cmp pad as as = .eq := by
  rw [cmpPadded_eq_lexCmp L as as as.length le_rfl le_rfl, lexCmp_refl L]

theorem cmpPadded_congr {cmp : α → α → Ordering} {pad : α} (L : LawfulCmp cmp)
    {as bs : List α} (h : cmpPadded cmp pad as bs = .eq) (cs : List α) :
    cmpPadded cmp pad as cs = cmpPadded cmp pad bs cs := by
  set n := max (max as.length bs.length) cs.length with hn
  have ha : as.length ≤ n := le_trans (le_max_left _ _) (le_max_left _ _)
  have hb : bs.length ≤ n := le_trans (le_max_right _ _) (le_max_left _ _)
  have hc : cs.length ≤ n := le_max_right _ _
  rw [cmpPadded_eq_lexCmp L as bs n ha hb] at h
  rw [cmpPadded_eq_lexCmp L as cs n ha hc, cmpPadded_eq_lexCmp L bs cs n hb hc]
  exact lexCmp_congr L _ _ _ h

theorem cmpPadded_trans_lt {cmp : α → α → Ordering} {pad : α} (L : LawfulCmp cmp)
    {as bs cs : List α} (h1 : cmpPadded cmp pad as bs = .lt)
    (h2 : cmpPadded cmp pad bs cs = .lt) : cmpPadded cmp pad as cs = .lt := by
  set n := max (max as.length bs.length) cs.length with hn
  have ha : as.length ≤ n := le_trans (le_max_left _ _) (le_max_left _ _)
  have hb : bs.length ≤ n := le_trans (le_max_right _ _) (le_max_left _ _)
  have hc : cs.length ≤ n := le_max_right _ _
  rw [cmpPadded_eq_lexCmp L as bs n ha hb] at h1
  rw [cmpPadded_eq_lexCmp L bs cs n hb hc] at h2
  rw [cmpPadded_eq_lexCmp L as cs n ha hc]
  exact lexCmp_trans_lt L _ _ _ h1 h2

theorem cmpPadded_lawful {cmp : α → α → Ordering} {pad : α} (L : LawfulCmp cmp) :
    LawfulCmp (cmpPadded cmp pad) :=
  ⟨fun x y => cmpPadded_swap L x y,
    fun _ _ h z => cmpPadded_congr L h z,
    fun _ _ _ h1 h2 => cmpPadded_trans_lt L h1 h2⟩

theorem pcmp_lawful : LawfulCmp pcmp := by
  have h := @cmpPadded_lawful Nat natCmp 0 natCmp_lawful
  exact ⟨fun x y => h.swap x.components y.components,
    fun x y hx z => h.congr x.components y.components hx z.components,
    fun x y z => h.trans_lt x.components y.components z.components⟩

theorem vcmp_lawful : LawfulCmp vcmp := by
  have h := @cmpPadded_lawful VersionPart pcmp zeroPart pcmp_lawful
  exact ⟨fun x y => h.swap x.parts y.parts,
    fun x y hx z => h.congr x.parts y.parts hx z.parts,
    fun x y z => h.trans_lt x.parts y.parts z.parts⟩

/-! ### The Python comparison loops compute the padded comparator -/

theorem vpLtNil_eq_cmp : ∀ bs, vpLtNil bs = decide (cmpNilPad natCmp 0 bs = .lt)
  | [] => rfl
  | b :: bs => by
    rw [vpLtNil, cmpNilPad]
    rcases Nat.lt_trichotomy 0 b with h | h | h
    · rw [natCmp_eq_lt.mpr h, if_pos h]; rfl
    · rw [natCmp_eq_eq.mpr h, if_neg (by omega), if_neg (by omega)]
      exact vpLtNil_eq_cmp bs
    · exact absurd h (by omega)

theorem vpGtNil_eq_cmp : ∀ bs, vpGtNil bs = decide (cmpNilPad natCmp 0 bs = .gt)
  | [] => rfl
  | b :: bs => by
    rw [vpGtNil, cmpNilPad]
    rcases Nat.lt_trichotomy 0 b with h | h | h
    · rw [natCmp_eq_lt.mpr h, if_neg (by omega), if_pos h]; rfl
    · rw [natCmp_eq_eq.mpr h, if_neg (by omega), if_neg (by omega)]
      exact vpGtNil_eq_cmp bs
    · exact absurd h (by omega)

theorem vpLtAux_eq_cmp : ∀ as bs, vpLtAux as bs = decide (cmpPadded natCmp 0 as bs = .lt)
  | [], bs => vpLtNil_eq_cmp bs
  | a :: as', [] => by
    rw [vpLtAux, cmpPadded]
    rcases Nat.lt_trichotomy a 0 with h | h | h
    · exact absurd h (by omega)
    · rw [natCmp_eq_eq.mpr h, if_neg (by omega), if_neg (by omega)]
      exact vpLtAux_eq_cmp as' []
    · rw [natCmp_eq_gt.mpr h, if_neg (by omega), if_pos h]; rfl
  | a :: as', b :: bs => by
    rw [vpLtAux, cmpPadded]
    rcases Nat.lt_trichotomy a b with h | h | h
    · rw [natCmp_eq_lt.mpr h, if_pos h]; rfl
    · rw [natCmp_eq_eq.mpr h, if_neg (by omega), if_neg (by omega)]
      exact vpLtAux_eq_cmp as' bs
    · rw [natCmp_eq_gt.mpr h, if_neg (by omega), if_pos h]; rfl

theorem vpGtAux_eq_cmp : ∀ as bs, vpGtAux as bs = decide (cmpPadded natCmp 0 as bs = .gt)
  | [], bs => vpGtNil_eq_cmp bs
  | a :: as', [] => by
    rw [vpGtAux, cmpPadded]
    rcases Nat.lt_trichotomy a 0 with h | h | h
    · exact absurd h (by omega)
    · rw [natCmp_eq_eq.mpr h, if_neg (by omega), if_neg (by omega)]
      exact vpGtAux_eq_cmp as' []
    · rw [natCmp_eq_gt.mpr h, if_pos h]; rfl
  | a :: as', b :: bs => by
    rw [vpGtAux, cmpPadded]
    rcases Nat.lt_trichotomy a b with h | h | h
    · rw [natCmp_eq_lt.mpr h, if_neg (by omega), if_pos h]; rfl
    · rw [natCmp_eq_eq.mpr h, if_neg (by omega), if_neg (by omega)]
      exact vpGtAux_eq_cmp as' bs
    · rw [natCmp_eq_gt.mpr h, if_pos h]; rfl

theorem vpLt_eq_cmp (p q : VersionPart) : vpLt p q = decide (pcmp p q = .lt) :=
  vpLtAux_eq_cmp p.components q.components

theorem vpGt_eq_cmp (p q : VersionPart) : vpGt p q = decide (pcmp p q = .gt) :=
  vpGtAux_eq_cmp p.components q.components

theorem verLtNil_eq_cmp : ∀ bs, verLtNil bs = decide (cmpNilPad pcmp zeroPart bs = .lt)
  | [] => rfl
  | b :: bs => by
    rw [verLtNil, cmpNilPad, vpLt_eq_cmp, vpGt_eq_cmp]
    cases h : pcmp zeroPart b <;> simp [verLtNil_eq_cmp bs]

theorem verEqNil_eq_cmp : ∀ bs, verEqNil bs = decide (cmpNilPad pcmp zeroPart bs = .eq)
  | [] => rfl
  | b :: bs => by
    rw [verEqNil, cmpNilPad, vpLt_eq_cmp, vpGt_eq_cmp]
    cases h : pcmp zeroPart b <;> simp [verEqNil_eq_cmp bs]

theorem verLeNil_eq_cmp : ∀ bs, verLeNil bs = decide (cmpNilPad pcmp zeroPart bs ≠ .gt)
  | [] => rfl
  | b :: bs => by
    rw [verLeNil, cmpNilPad, vpLt_eq_cmp, vpGt_eq_cmp]
    cases h : pcmp zeroPart b <;> simp [verLeNil_eq_cmp bs]

theorem verGtNil_eq_cmp : ∀ bs, verGtNil bs = decide (cmpNilPad pcmp zeroPart bs = .gt)
  | [] => rfl
  | b :: bs => by
    rw [verGtNil, cmpNilPad, vpLt_eq_cmp, vpGt_eq_cmp]
    cases h : pcmp zeroPart b <;> simp [verGtNil_eq_cmp bs]

theorem verGeNil_eq_cmp : ∀ bs, verGeNil bs = decide (cmpNilPad pcmp zeroPart bs ≠ .lt)
  | [] => rfl
  | b :: bs => by
    rw [verGeNil, cmpNilPad, vpLt_eq_cmp, vpGt_eq_cmp]
    cases h : pcmp zeroPart b <;> simp [verGeNil_eq_cmp bs]

theorem verLtAux_eq_cmp :
    ∀ as bs, verLtAux as bs = decide (cmpPadded pcmp zeroPart as bs = .lt)
  | [], bs => verLtNil_eq_cmp bs
  | a :: as', [] => by
    rw [verLtAux, cmpPadded, vpLt_eq_cmp, vpGt_eq_cmp]
    cases h : pcmp a zeroPart <;> simp [verLtAux_eq_cmp as' []]
  | a :: as', b :: bs => by
    rw [verLtAux, cmpPadded, vpLt_eq_cmp, vpGt_eq_cmp]
    cases h : pcmp a b <;> simp [verLtAux_eq_cmp as' bs]

theorem verEqAux_eq_cmp :
    ∀ as bs, verEqAux as bs = decide (cmpPadded pcmp zeroPart as bs = .eq)
  | [], bs => verEqNil_eq_cmp bs
  | a :: as', [] => by
    rw [verEqAux, cmpPadded, vpLt_eq_cmp, vpGt_eq_cmp]
    cases h : pcmp a zeroPart <;> simp [verEqAux_eq_cmp as' []]
  | a :: as', b :: bs => by
    rw [verEqAux, cmpPadded, vpLt_eq_cmp, vpGt_eq_cmp]
    cases h : pcmp a b <;> simp [verEqAux_eq_cmp as' bs]

theorem verLeAux_eq_cmp :
    ∀ as bs, verLeAux as bs = decide (cmpPadded pcmp zeroPart as bs ≠ .gt)
  | [], bs => verLeNil_eq_cmp bs
  | a :: as', [] => by
    rw [verLeAux, cmpPadded, vpLt_eq_cmp, vpGt_eq_cmp]
    cases h : pcmp a zeroPart <;> simp [verLeAux_eq_cmp as' []]
  | a :: as', b :: bs => by
    rw [verLeAux, cmpPadded, vpLt_eq_cmp, vpGt_eq_cmp]
    cases h : pcmp a b <;> simp [verLeAux_eq_cmp as' bs]

theorem verGtAux_eq_cmp :
    ∀ as bs, verGtAux as bs = decide (cmpPadded pcmp zeroPart as bs = .gt)
  | [], bs => verGtNil_eq_cmp bs
  | a :: as', [] => by
    rw [verGtAux, cmpPadded, vpLt_eq_cmp, vpGt_eq_cmp]
    cases h : pcmp a zeroPart <;> simp [verGtAux_eq_cmp as' []]
  | a :: as', b :: bs => by
    rw [verGtAux, cmpPadded, vpLt_eq_cmp, vpGt_eq_cmp]
    cases h : pcmp a b <;> simp [verGtAux_eq_cmp as' bs]

theorem verGeAux_eq_cmp :
    ∀ as bs, verGeAux as bs = decide (cmpPadded pcmp zeroPart as bs ≠ .lt)
  | [], bs => verGeNil_eq_cmp bs
  | a :: as', [] => by
    rw [verGeAux, cmpPadded, vpLt_eq_cmp, vpGt_eq_cmp]
    cases h : pcmp a zeroPart <;> simp [verGeAux_eq_cmp as' []]
  | a :: as', b :: bs => by
    rw [verGeAux, cmpPadded, vpLt_eq_cmp, vpGt_eq_cmp]
    cases h : pcmp a b <;> simp [verGeAux_eq_cmp as' bs]

theorem verLt_eq_cmp (a b : Version) : verLt a b = decide (vcmp a b = .lt) :=
  verLtAux_eq_cmp a.parts b.parts

theorem verEq_eq_cmp (a b : Version) : verEq a b = decide (vcmp a b = .eq) :=
  verEqAux_eq_cmp a.parts b.parts

theorem verLe_eq_cmp (a b : Version) : verLe a b = decide (vcmp a b ≠ .gt) :=
  verLeAux_eq_cmp a.parts b.parts

theorem verGt_eq_cmp (a b : Version) : verGt a b = decide (vcmp a b = .gt) :=
  verGtAux_eq_cmp a.parts b.parts

theorem verGe_eq_cmp (a b : Version) : verGe a b = decide (vcmp a b ≠ .lt) :=
  verGeAux_eq_cmp a.parts b.parts

/-! # Claim C7: version comparison is a strict weak order with zero-padding -/

/-- C7: version comparison is a strict weak order compatible with
zero-padding: for all parsed versions `a`, `b`, `c`, exactly one of `a < b`,
`a == b`, `b < a` holds; `<`, `<=` and `==` are transitive; `==` holds iff
neither `<` nor `>` does; and `parse("1.2") == parse("1.2.0")` while
`parse("1.2") < parse("1.2.1")`. -/
theorem claim_C7_strict_weak_order :
    (∀ a b : Version,
      (verLt a b = true ∧ verEq a b = false ∧ verLt b a = false) ∨
      (verLt a b = false ∧ verEq a b = true ∧ verLt b a = false) ∨
      (verLt a b = false ∧ verEq a b = false ∧ verLt b a = true)) ∧
    (∀ a b c : Version, verLt a b = true → verLt b c = true → verLt a c = true) ∧
    (∀ a b c : Version, verLe a b = true → verLe b c = true → verLe a c = true) ∧
    (∀ a b c : Version, verEq a b = true → verEq b c = true → verEq a c = true) ∧
    (∀ a b : Version, verEq a b = true ↔ (verLt a b = false ∧ verGt a b = false)) ∧
    versionFromString "1.2".data = .ok (parseVer "1.2") ∧
    versionFromString "1.2.0".data = .ok (parseVer "1.2.0") ∧
    versionFromString "1.2.1".data = .ok (parseVer "1.2.1") ∧
    verEq (parseVer "1.2") (parseVer "1.2.0") = true ∧
    verLt (parseVer "1.2") (parseVer "1.2.1") = true := by
  have L := vcmp_lawful
  refine ⟨?_, ?_, ?_, ?_, ?_, rfl, rfl, rfl, rfl, rfl⟩
  · intro a b
    rw [verLt_eq_cmp a b, verEq_eq_cmp a b, verLt_eq_cmp b a, L.swap a b]
    cases h : vcmp a b <;> simp [Ordering.swap]
  · intro a b c h1 h2
    rw [verLt_eq_cmp] at h1 h2 ⊢
    exact decide_eq_true (L.trans_lt _ _ _ (of_decide_eq_true h1) (of_decide_eq_true h2))
  · intro a b c h1 h2
    rw [verLe_eq_cmp] at h1 h2 ⊢
    have p1 := of_decide_eq_true h1
    have p2 := of_decide_eq_true h2
    refine decide_eq_true ?_
    cases hab : vcmp a b with
    | gt => exact absurd hab p1
    | lt =>
      cases hbc : vcmp b c with
      | gt => exact absurd hbc p2
      | lt =>
        have hac := L.trans_lt a b c hab hbc
        rw [hac]; simp
      | eq =>
        rw [L.congr_right hbc a] at hab
        rw [hab]; simp
    | eq =>
      rw [L.congr a b hab c]
      exact p2
  · intro a b c h1 h2
    rw [verEq_eq_cmp] at h1 h2 ⊢
    have p1 := of_decide_eq_true h1
    have p2 := of_decide_eq_true h2
    refine decide_eq_true ?_
    rw [L.congr a b p1 c]
    exact p2
  · intro a b
    rw [verEq_eq_cmp, verLt_eq_cmp, verGt_eq_cmp]
    cases h : vcmp a b <;> simp

/-! # Claim C1: pre-release qualifier precedence -/

/-- C1 counterexample: the claim asserts `parse("1.0-rc1") < parse("1.0-release")`,
but the textual replacement turns `"rc1"` into the single number `21` (the
token `2` fuses with the following `1`), and `"release"` into `3`, so the
comparison is FALSE (in fact `>` holds). -/
theorem claim_C1_counterexample :
    versionFromString "1.0-rc1".data = .ok ⟨"1.0-21".data, [⟨[1, 0]⟩, ⟨[21]⟩]⟩ ∧
    versionFromString "1.0-release".data = .ok ⟨"1.0-3".data, [⟨[1, 0]⟩, ⟨[3]⟩]⟩ ∧
    verLt (parseVer "1.0-rc1") (parseVer "1.0-release") = false :=
  ⟨rfl, rfl, rfl⟩

/-- C1 amended: the textual markers are replaced by numeric tokens
(alpha→0, beta→1, pre-release/pre/rc/snapshot→2, release→3) before
splitting, so `parse("1.0-alpha") < parse("1.0-beta")` holds as claimed;
but because the replacement is purely textual, `"rc1"` becomes the single
number 21, so `parse("1.0-rc1") > parse("1.0-release")` (21 > 3) rather
than `<` as claimed. -/
theorem claim_C1_amended :
    verGt (parseVer "1.0-rc1") (parseVer "1.0-release") = true ∧
    verLt (parseVer "1.0-alpha") (parseVer "1.0-beta") = true ∧
    parseVer "1.0-rc1" = ⟨"1.0-21".data, [⟨[1, 0]⟩, ⟨[21]⟩]⟩ ∧
    parseVer "1.0-release" = ⟨"1.0-3".data, [⟨[1, 0]⟩, ⟨[3]⟩]⟩ ∧
    parseVer "1.0-alpha" = ⟨"1.0-0".data, [⟨[1, 0]⟩, ⟨[0]⟩]⟩ ∧
    parseVer "1.0-beta" = ⟨"1.0-1".data, [⟨[1, 0]⟩, ⟨[1]⟩]⟩ :=
  ⟨rfl, rfl, rfl, rfl, rfl, rfl⟩

/-! # Claim C8: range containment -/

/-- C8: `r.contains(v)` is true iff `v` satisfies the lower bound (`<=` or
`<` per inclusivity, skipped when wildcard) and the upper bound (`>=` or `>`
per inclusivity, skipped when wildcard); `[1.0,2.0]` contains `1.0`, `2.0`
and `1.5`; `(1.0,2.0)` contains `1.5` but neither endpoint; and the wildcard
range `*` contains every parsed `Version`. -/
theorem claim_C8_contains :
    (∀ (r : VersionRange) (v : Version),
      r.contains v = (lowerBoundOk r v && upperBoundOk r v)) ∧
    rangeFromString "*".data = .ok [⟨⟨⟨['*'], []⟩, true⟩, ⟨⟨['*'], []⟩, true⟩⟩] ∧
    (∀ v : Version,
      VersionRange.contains ⟨⟨⟨['*'], []⟩, true⟩, ⟨⟨['*'], []⟩, true⟩⟩ v = true) ∧
    rangeFromString "[1.0,2.0]".data =
      .ok [⟨⟨⟨"1.0".data, [⟨[1, 0]⟩]⟩, true⟩, ⟨⟨"2.0".data, [⟨[2, 0]⟩]⟩, true⟩⟩] ∧
    rangeFromString "(1.0,2.0)".data =
      .ok [⟨⟨⟨"1.0".data, [⟨[1, 0]⟩]⟩, false⟩, ⟨⟨"2.0".data, [⟨[2, 0]⟩]⟩, false⟩⟩] ∧
    VersionRange.contains
      ⟨⟨⟨"1.0".data, [⟨[1, 0]⟩]⟩, true⟩, ⟨⟨"2.0".data, [⟨[2, 0]⟩]⟩, true⟩⟩
      (parseVer "1.0") = true ∧
    VersionRange.contains
      ⟨⟨⟨"1.0".data, [⟨[1, 0]⟩]⟩, true⟩, ⟨⟨"2.0".data, [⟨[2, 0]⟩]⟩, true⟩⟩
      (parseVer "2.0") = true ∧
    VersionRange.contains
      ⟨⟨⟨"1.0".data, [⟨[1, 0]⟩]⟩, true⟩, ⟨⟨"2.0".data, [⟨[2, 0]⟩]⟩, true⟩⟩
      (parseVer "1.5") = true ∧
    VersionRange.contains
      ⟨⟨⟨"1.0".data, [⟨[1, 0]⟩]⟩, false⟩, ⟨⟨"2.0".data, [⟨[2, 0]⟩]⟩, false⟩⟩
      (parseVer "1.0") = false ∧
    VersionRange.contains
      ⟨⟨⟨"1.0".data, [⟨[1, 0]⟩]⟩, false⟩, ⟨⟨"2.0".data, [⟨[2, 0]⟩]⟩, false⟩⟩
      (parseVer "2.0") = false ∧
    VersionRange.contains
      ⟨⟨⟨"1.0".data, [⟨[1, 0]⟩]⟩, false⟩, ⟨⟨"2.0".data, [⟨[2, 0]⟩]⟩, false⟩⟩
      (parseVer "1.5") = true := by
  refine ⟨?_, rfl, fun v => rfl, rfl, rfl, rfl, rfl, rfl, rfl, rfl, rfl⟩
  intro r v
  unfold VersionRange.contains lowerBoundOk upperBoundOk
  split_ifs <;> simp

/-! # Claim C2: bisection correctness (code bug) -/

/-- C2 (code bug): the claim — and the comment and `__main__` harness of
`eliminate.py` itself — say `binaryElimination` returns the index of the one
`True` entry; evaluating the embedded code refutes this.  With the guilty
candidate at index 0 of 2 it returns 1; with the guilty candidate at index 1
of 2 it returns -1; with the guilty candidate at index 2 of 4 it returns 3. -/
theorem claim_C2_binary_elimination_evaluation :
    binaryElimination [true, false] = 1 ∧
    binaryElimination [false, true] = -1 ∧
    binaryElimination [false, false, true, false] = 3 := by
  refine ⟨?_, ?_, ?_⟩ <;>
    simp [binaryElimination, binaryEliminationLoop, pySlice, Int.fdiv]

/-! # Claim C3: node merge (code bug) -/

/-- C3 (code bug): after `a.merge(b)` the claim (and the spec) say every mod
formerly in `b` is a member of `a.mod_set`; but the code calls
`self.mod_set.union(...)`, whose result is discarded (`set.union` does not
mutate), so "b" is NOT in node 0's mod set afterwards.  The index updates
and the emptying of `b.mod_set` do happen. -/
theorem claim_C3_node_merge_loses_membership :
    ("b".data ∉ ((nodeMerge c3State 0 1).nodes 0).mod_set) ∧
    ((nodeMerge c3State 0 1).nodes 0).mod_set = {"a".data} ∧
    (nodeMerge c3State 0 1).allNodes "b".data = 0 ∧
    (nodeMerge c3State 0 1).allGraphs "b".data = 0 ∧
    ((nodeMerge c3State 0 1).nodes 1).mod_set = ∅ := by
  refine ⟨?_, ?_, ?_, ?_, ?_⟩ <;> decide

/-! # Claim C4: graph merge -/

theorem graphMergeStep_graphNodes_ne {a c : Nat} (node : Nat) (st : GraphState)
    (h : c ≠ a) : (graphMergeStep a node st).graphNodes c = st.graphNodes c :=
  Function.update_noteq h _ _

theorem graphMergeLoop_spec (a b : Nat) (hab : a ≠ b) :
    ∀ (fuel : Nat) (st : GraphState) (i : Nat),
      (st.graphNodes b).length - i < fuel →
      ∃ st', graphMergeLoop a b fuel st i = some st' ∧
        st'.graphNodes b = [] ∧
        st'.graphNodes a = st.graphNodes a ++ (st.graphNodes b).drop i ∧
        (∀ c, c ≠ a → c ≠ b → st'.graphNodes c = st.graphNodes c) ∧
        st'.nodeMods = st.nodeMods ∧
        (∀ n, n ∈ (st.graphNodes b).drop i → st'.nodeGraph n = a) ∧
        (∀ n, n ∉ (st.graphNodes b).drop i → st'.nodeGraph n = st.nodeGraph n) ∧
        (∀ m, (∃ n, n ∈ (st.graphNodes b).drop i ∧ m ∈ st.nodeMods n) →
          st'.allGraphs m = a) ∧
        (∀ m, (∀ n, n ∈ (st.graphNodes b).drop i → m ∉ st.nodeMods n) →
          st'.allGraphs m = st.allGraphs m) ∧
        (∀ m, st'.allNodes m =
          ((((st.graphNodes b).drop i).reverse.find?
            fun n => decide (m ∈ st.nodeMods n)).getD (st.allNodes m))) := by
  intro fuel
  induction fuel with
  | zero => intro st i h; omega
  | succ f ih =>
    intro st i h
    by_cases hi : i < (st.graphNodes b).length
    · have hdrop : (st.graphNodes b).drop i =
          (st.graphNodes b)[i] :: (st.graphNodes b).drop (i + 1) :=
        List.drop_eq_getElem_cons hi
      set node := (st.graphNodes b)[i] with hnode
      set st2 := graphMergeStep a node st with hst2
      have hb2 : st2.graphNodes b = st.graphNodes b :=
        graphMergeStep_graphNodes_ne node st (Ne.symm hab)
      have hmods2 : st2.nodeMods = st.nodeMods := rfl
      obtain ⟨st', heq, hB, hA, hC, hM, hG1, hG2, hAG1, hAG2, hAN⟩ :=
        ih st2 (i + 1) (by rw [hb2]; omega)
      refine ⟨st', ?_, hB, ?_, ?_, ?_, ?_, ?_, ?_, ?_, ?_⟩
      · rw [graphMergeLoop, dif_pos hi]
        exact heq
      · rw [hA, hb2]
        have ha2 : st2.graphNodes a = st.graphNodes a ++ [node] :=
          Function.update_same _ _ _
        rw [ha2, hdrop, List.append_assoc, List.singleton_append]
      · intro c hca hcb
        rw [hC c hca hcb]
        exact graphMergeStep_graphNodes_ne node st hca
      · rw [hM]; rfl
      · intro n hn
        by_cases h2 : n ∈ (st.graphNodes b).drop (i + 1)
        · exact hG1 n (by rw [hb2]; exact h2)
        · have hnn : n = node := by
            rw [hdrop] at hn
            rcases List.mem_cons.mp hn with h3 | h3
            · exact h3
            · exact absurd h3 h2
          rw [hG2 n (by rw [hb2]; exact h2), hnn]
          exact Function.update_same _ _ _
      · intro n hn
        rw [hdrop] at hn
        have hne : n ≠ node := fun he => hn (he ▸ List.mem_cons_self _ _)
        have h2 : n ∉ (st.graphNodes b).drop (i + 1) := fun he => hn (List.mem_cons_of_mem _ he)
        rw [hG2 n (by rw [hb2]; exact h2)]
        exact Function.update_noteq hne _ _
      · intro m hm
        by_cases h2 : ∃ n, n ∈ (st.graphNodes b).drop (i + 1) ∧ m ∈ st.nodeMods n
        · exact hAG1 m (by rw [hb2, hmods2]; exact h2)
        · obtain ⟨n, hn, hmn⟩ := hm
          rw [hdrop] at hn
          have hnn : n = node := by
            rcases List.mem_cons.mp hn with h3 | h3
            · exact h3
            · exact absurd ⟨n, h3, hmn⟩ h2
          have hstep : st'.allGraphs m = st2.allGraphs m := by
            apply hAG2
            intro n2 hn2 hmem
            exact h2 ⟨n2, by rw [hb2] at hn2; exact hn2, by rw [hmods2] at hmem; exact hmem⟩
          rw [hstep, hst2]
          simp only [graphMergeStep]
          rw [if_pos (hnn ▸ hmn)]
      · intro m hnone
        have hstep : st'.allGraphs m = st2.allGraphs m := by
          apply hAG2
          intro n2 hn2 hmem
          rw [hb2] at hn2
          rw [hmods2] at hmem
          exact hnone n2 (by rw [hdrop]; exact List.mem_cons_of_mem _ hn2) hmem
        rw [hstep, hst2]
        simp only [graphMergeStep]
        rw [if_neg (hnone node (by rw [hdrop]; exact List.mem_cons_self _ _))]
      · intro m
        rw [hAN m, hb2, hmods2, hdrop, List.reverse_cons, List.find?_append]
        cases hf : ((st.graphNodes b).drop (i + 1)).reverse.find?
            (fun n => decide (m ∈ st.nodeMods n)) with
        | some x => rfl
        | none =>
          by_cases hmem : m ∈ st.nodeMods node <;>
            simp [Option.or, List.find?, hmem, hst2, graphMergeStep]
    · have hdrop : (st.graphNodes b).drop i = [] := List.drop_eq_nil_of_le (by omega)
      refine ⟨{ st with graphNodes := Function.update st.graphNodes b [] },
        by rw [graphMergeLoop, dif_neg hi], ?_, ?_, ?_, rfl, ?_, ?_, ?_, ?_, ?_⟩
      · exact Function.update_same _ _ _
      · rw [hdrop, List.append_nil]
        exact Function.update_noteq hab _ _
      · intro c _ hcb
        exact Function.update_noteq hcb _ _
      · intro n hn
        rw [hdrop] at hn
        exact absurd hn (List.not_mem_nil n)
      · intro n _
        rfl
      · intro m hm
        obtain ⟨n, hn, _⟩ := hm
        rw [hdrop] at hn
        exact absurd hn (List.not_mem_nil n)
      · intro m _
        rfl
      · intro m
        rw [hdrop]
        rfl

theorem graphMergeLoop_self_none :
    ∀ (fuel : Nat) (st : GraphState) (a i : Nat), i < (st.graphNodes a).length →
      graphMergeLoop a a fuel st i = none := by
  intro fuel
  induction fuel with
  | zero => intro st a i _; rfl
  | succ f ih =>
    intro st a i h
    rw [graphMergeLoop, dif_pos h]
    apply ih
    have : (graphMergeStep a ((st.graphNodes a)[i]) st).graphNodes a =
        st.graphNodes a ++ [(st.graphNodes a)[i]] := Function.update_same _ _ _
    rw [this, List.length_append]
    simp only [List.length_cons, List.length_nil]
    omega

/-- C4 counterexample: the claim says `mergeGraphs(a, b)` is a no-op when
`a is b`; but the code has no identity guard, and merging the concrete
one-node graph 0 with itself never returns for any number of loop
iterations (each iteration appends to the very list being iterated). -/
theorem claim_C4_counterexample : ¬ graphMergeTerminates c4StateSelf 0 0 := by
  rintro ⟨fuel, st', h⟩
  rw [graphMergeLoop_self_none fuel c4StateSelf 0 0 (by simp [c4StateSelf])] at h
  exact Option.noConfusion h

/-- C4 amended: for `a ≠ b`, `DependencyGraph.merge` moves all nodes of `b`
into `a`, re-targets every id→Graph mapping of mods owned by `b` to `a`,
sets each moved node's owning graph to `a`, leaves the id→Node index at the
(last) node of `b` containing the id, empties `b`, and is idempotent.  When
`a` and `b` are the same object there is no guard: the loop never
terminates (the `is not` check lives in the CALLER, `process_graph`). -/
theorem claim_C4_graph_merge_amended :
    (∀ (st : GraphState) (a b : Nat), a ≠ b →
      ∃ st', graphMerge a b st = some st' ∧
        st'.graphNodes b = [] ∧
        st'.graphNodes a = st.graphNodes a ++ st.graphNodes b ∧
        (∀ c, c ≠ a → c ≠ b → st'.graphNodes c = st.graphNodes c) ∧
        st'.nodeMods = st.nodeMods ∧
        (∀ n, n ∈ st.graphNodes b → st'.nodeGraph n = a) ∧
        (∀ m, (∃ n, n ∈ st.graphNodes b ∧ m ∈ st.nodeMods n) → st'.allGraphs m = a) ∧
        (∀ m, st'.allNodes m =
          (((st.graphNodes b).reverse.find? fun n => decide (m ∈ st.nodeMods n)).getD
            (st.allNodes m))) ∧
        graphMerge a b st' = some st') ∧
    (∀ (st : GraphState) (a : Nat), st.graphNodes a ≠ [] →
      ¬ graphMergeTerminates st a a) := by
  constructor
  · intro st a b hab
    obtain ⟨st', heq, hB, hA, hC, hM, hG1, _, hAG1, _, hAN⟩ :=
      graphMergeLoop_spec a b hab ((st.graphNodes b).length + 1) st 0 (by omega)
    refine ⟨st', heq, hB, by simpa using hA, hC, hM, by simpa using hG1,
      by simpa using hAG1, by simpa using hAN, ?_⟩
    have hupd : Function.update st'.graphNodes b [] = st'.graphNodes := by
      rw [← hB]
      exact Function.update_eq_self b st'.graphNodes
    show graphMergeLoop a b ((st'.graphNodes b).length + 1) st' 0 = some st'
    rw [hB]
    rw [graphMergeLoop, dif_neg (by rw [hB]; simp)]
    rw [hupd]
  · intro st a hne
    rintro ⟨fuel, st', h⟩
    rw [graphMergeLoop_self_none fuel st a 0 (List.length_pos.mpr hne)] at h
    exact Option.noConfusion h

/-! # Claim C9: range-string grammar -/

/-- C9 counterexample: the claim says the EMPTY string is accepted as the
unbounded range and that `fromString` fails exactly when the input has no
bracket expression, is not `*`, and is not a bare token.  But the code
accepts only `"*"` or `","` (the empty string raises `BadVersionString`),
and the bare token `"abc"` — which matches the bare-token regex — also
raises `BadVersionString`, because `Version.fromString("abc")` fails. -/
theorem claim_C9_counterexample :
    rangeFromString [] =
      .error (.badVersionString ("Could not form from ".data ++ [sq, sq])) ∧
    isBareToken "abc".data = true ∧
    rangeFromString "abc".data =
      .error (.badVersionString
        ("Invalid version string ".data ++ sq :: ("abc".data ++ [sq]))) :=
  ⟨rfl, rfl, rfl⟩

/-- C9 amended: `VersionRange.fromString` accepts `"*"` or `","` (not the
empty string) as the single doubly-unbounded range; a bare version token
yields the exact-match inclusive range when the token parses as a `Version`
and otherwise propagates that `BadVersionString`; and an input that is
neither `"*"` nor `","` nor a bare token and contains no bracket expression
fails with `BadVersionString` (in particular the empty string does). -/
theorem claim_C9_amended :
    (∀ s : List Char, s = "*".data ∨ s = ",".data →
      rangeFromString s = .ok [⟨⟨⟨['*'], []⟩, true⟩, ⟨⟨['*'], []⟩, true⟩⟩]) ∧
    (∀ (s : List Char) (v : Version), isBareToken s = true → versionFromString s = .ok v →
      rangeFromString s = .ok [⟨⟨v, true⟩, ⟨v, true⟩⟩]) ∧
    (∀ (s : List Char) (e : PyErr), isBareToken s = true → versionFromString s = .error e →
      rangeFromString s = .error e) ∧
    (∀ s : List Char, s ≠ "*".data → s ≠ ",".data → isBareToken s = false →
      findBracketExprs s = [] →
      rangeFromString s =
        .error (.badVersionString ("Could not form from ".data ++ sq :: (s ++ [sq])))) ∧
    rangeFromString [] =
      .error (.badVersionString ("Could not form from ".data ++ [sq, sq])) := by
  refine ⟨?_, ?_, ?_, ?_, rfl⟩
  · rintro s (rfl | rfl) <;> rfl
  · intro s v hbare hok
    have h1 : s ≠ "*".data := by
      rintro rfl; exact absurd hbare (by decide)
    have h2 : s ≠ ",".data := by
      rintro rfl; exact absurd hbare (by decide)
    rw [rangeFromString, if_neg (by simp [h1, h2]), if_pos hbare]
    rw [hok]
    rfl
  · intro s e hbare herr
    have h1 : s ≠ "*".data := by
      rintro rfl; exact absurd hbare (by decide)
    have h2 : s ≠ ",".data := by
      rintro rfl; exact absurd hbare (by decide)
    rw [rangeFromString, if_neg (by simp [h1, h2]), if_pos hbare]
    rw [herr]
    rfl
  · intro s h1 h2 h3 h4
    rw [rangeFromString, if_neg (by simp [h1, h2]), if_neg (by simp [h3]), h4]
    rfl

/-! # Claim C5: BadVersionString recovery in Mod.load -/

theorem except_bind_error {α β : Type} {m : Except PyErr α} {f : α → Except PyErr β}
    {e : PyErr} (h : (m >>= f) = .error e) :
    m = .error e ∨ ∃ a, m = .ok a ∧ f a = .error e := by
  cases m with
  | error e1 =>
    left
    have : e1 = e := Except.error.inj h
    rw [this]
  | ok a => right; exact ⟨a, rfl, h⟩

theorem versionFromString_error_shape {s : List Char} {e : PyErr}
    (h : versionFromString s = .error e) : ∃ m, e = .badVersionString m := by
  unfold versionFromString at h
  split at h
  · exact nomatch h
  · dsimp only at h
    split at h
    · exact ⟨_, (Except.error.inj h).symm⟩
    · exact nomatch h

theorem parseBracketRange_error_shape {r : List Char} {e : PyErr}
    (h : parseBracketRange r = .error e) : ∃ m, e = .badVersionString m := by
  simp only [parseBracketRange] at h
  rcases except_bind_error h with h1 | ⟨lb, _, h2⟩
  · exact versionFromString_error_shape h1
  · rcases except_bind_error h2 with h3 | ⟨ub, _, h4⟩
    · exact versionFromString_error_shape h3
    · exact nomatch h4

theorem mapM_parseBracketRange_error :
    ∀ (l : List (List Char)) (e : PyErr), l.mapM parseBracketRange = .error e →
      ∃ r ∈ l, parseBracketRange r = .error e
  | [], e, h => nomatch h
  | r :: rest, e, h => by
    rw [List.mapM_cons] at h
    rcases except_bind_error h with h1 | ⟨v, _, h2⟩
    · exact ⟨r, List.mem_cons_self r rest, h1⟩
    · rcases except_bind_error h2 with h3 | ⟨vs, _, h4⟩
      · obtain ⟨r2, hr2, herr⟩ := mapM_parseBracketRange_error rest e h3
        exact ⟨r2, List.mem_cons_of_mem r hr2, herr⟩
      · exact nomatch h4

theorem rangeFromString_error_shape {s : List Char} {e : PyErr}
    (h : rangeFromString s = .error e) : ∃ m, e = .badVersionString m := by
  unfold rangeFromString at h
  split at h
  · exact nomatch h
  · split at h
    · rcases except_bind_error h with h1 | ⟨v, _, h2⟩
      · exact versionFromString_error_shape h1
      · exact nomatch h2
    · rcases except_bind_error h with h1 | ⟨rs, _, h2⟩
      · obtain ⟨r, _, herr⟩ := mapM_parseBracketRange_error _ e h1
        exact parseBracketRange_error_shape herr
      · split at h2
        · exact ⟨_, (Except.error.inj h2).symm⟩
        · exact nomatch h2

theorem processTomlDeps_ok (mf : List (List Char × List Char)) (name : List Char) :
    ∀ l : List TomlDep,
      (∀ d ∈ l, ∃ vr, processExternalField mf d.versionRange = .ok vr) →
      processTomlDeps mf name l = .ok (depsOfList mf l, errsOfList mf name l)
  | [], _ => rfl
  | d :: rest, hall => by
    obtain ⟨vr, hvr⟩ := hall d (List.mem_cons_self d rest)
    have ihr := processTomlDeps_ok mf name rest
      (fun d2 hd2 => hall d2 (List.mem_cons_of_mem d hd2))
    rw [processTomlDeps, hvr]
    cases hr : rangeFromString vr with
    | ok reqs =>
      simp only
      rw [ihr]
      simp [depsOfList, errsOfList, List.filterMap_cons, hvr, hr, pure, Except.pure,
        Bind.bind, Except.bind]
    | error e =>
      obtain ⟨m, rfl⟩ := rangeFromString_error_shape hr
      simp only
      rw [ihr]
      simp [depsOfList, errsOfList, List.filterMap_cons, hvr, hr, pure, Except.pure,
        Bind.bind, Except.bind]

/-- C5 counterexample: a manifest whose mod version text is `"abc"` makes
`Version.fromString` raise `BadVersionString` on line 150 of `mod_info.py`,
which is NOT inside any `try` — `Mod.load` itself fails with the exception
instead of recording a note, contradicting "never fatal to the whole run"
(no caller in `mod_info.py` or `main.py` catches it). -/
theorem claim_C5_counterexample :
    modLoad "a.jar".data c5BadVersionToml [] =
      .error (.badVersionString
        ("Invalid version string ".data ++ sq :: ("abc".data ++ [sq]))) := rfl

/-- C5 amended: a malformed DEPENDENCY version-range text is recovered
locally — `Mod.load` completes, the dependency is dropped, and the
per-dependency note lands on the owning package's error list — but a
malformed MOD VERSION text makes `BadVersionString` propagate out of
`Mod.load` (it is raised outside the `try` of the dependency loop). -/
theorem claim_C5_amended :
    (∀ (filename : List Char) (toml : TomlData) (manifest : List Char)
        (tm : TomlMod) (rest : List TomlMod)
        (deptab : List (List Char × List TomlDep))
        (modid vtext name : List Char) (ver : Version) (k : List Char)
        (deplist : List TomlDep),
      toml.mods = tm :: rest →
      toml.dependencies = some deptab →
      processExternalField (parseManifest manifest) tm.modId = .ok modid →
      processExternalField (parseManifest manifest) tm.version = .ok vtext →
      versionFromString vtext = .ok ver →
      processExternalField (parseManifest manifest) tm.displayName = .ok name →
      deptab.find? (fun p => p.1 = modid) = some (k, deplist) →
      deplist ≠ [] →
      (∀ d ∈ deplist,
        ∃ vr, processExternalField (parseManifest manifest) d.versionRange = .ok vr) →
      modLoad filename toml manifest =
        .ok ⟨filename, parseManifest manifest, some ⟨modid, ver, name⟩,
          depsOfList (parseManifest manifest) deplist,
          errsOfList (parseManifest manifest) name deplist⟩) ∧
    (∀ (filename : List Char) (toml : TomlData) (manifest : List Char)
        (tm : TomlMod) (rest : List TomlMod) (modid vtext : List Char) (e : PyErr),
      toml.mods = tm :: rest →
      processExternalField (parseManifest manifest) tm.modId = .ok modid →
      processExternalField (parseManifest manifest) tm.version = .ok vtext →
      versionFromString vtext = .error e →
      modLoad filename toml manifest = .error e) := by
  constructor
  · intro filename toml manifest tm rest deptab modid vtext name ver k deplist
      hmods htab hmodid hvtext hver hname hfind hdne hall
    obtain ⟨ms, dp⟩ := toml
    simp only at hmods htab
    subst hmods htab
    have hlen : deptab.length > 0 := by
      cases deptab
      · exact absurd hfind (by simp)
      · simp
    have hdlen : deplist.length > 0 := by
      cases deplist
      · exact absurd rfl hdne
      · simp
    simp [modLoad, Bind.bind, Except.bind, hmodid, hvtext, hver, hname, hfind,
      hlen, hdlen, processTomlDeps_ok (parseManifest manifest) name deplist hall,
      pure, Except.pure]
  · intro filename toml manifest tm rest modid vtext e hmods hmodid hvtext hverr
    obtain ⟨ms, dp⟩ := toml
    simp only at hmods
    subst hmods
    simp [modLoad, Bind.bind, Except.bind, hmodid, hvtext, hverr]

/-! # Claim C6: the validation pass -/

theorem lookupMod_packForm (p0 : List PackMod) (E : List Char → List (List Char))
    (D : List Char → List ModDependency) (x : List Char) :
    lookupMod (packForm p0 E D) x = (lookupMod p0 x).map
      (fun m => { m with errors := m.errors ++ E m.modid, dependents := m.dependents ++ D m.modid }) := by
  unfold lookupMod packForm
  rw [List.find?_map]
  rfl

theorem updateModEntry_map (l : List PackMod) (g : PackMod → PackMod)
    (hg : ∀ m, (g m).modid = m.modid) (id : List Char) (f : PackMod → PackMod) :
    updateModEntry (l.map g) id f =
      l.map (fun m => if m.modid = id then f (g m) else g m) := by
  unfold updateModEntry
  rw [List.map_map]
  refine List.map_congr_left fun m _ => ?_
  simp only [Function.comp]
  rw [hg m]

theorem processDepStep_packForm (p0 : List PackMod) (E : List Char → List (List Char))
    (D : List Char → List ModDependency) (e : List Char × ModDependency) :
    processDepStep (packForm p0 E D) e.1 e.2 =
      packForm p0 (fun t => E t ++ noteOfEvent p0 t e)
        (fun t => D t ++ depOfEvent p0 t e) := by
  obtain ⟨r, d⟩ := e
  have hg : ∀ m : PackMod,
      (({ m with errors := m.errors ++ E m.modid, dependents := m.dependents ++ D m.modid } : PackMod)).modid = m.modid :=
    fun _ => rfl
  have hpf : packForm p0 E D = p0.map
      (fun m => { m with errors := m.errors ++ E m.modid, dependents := m.dependents ++ D m.modid }) := rfl
  unfold processDepStep
  rw [lookupMod_packForm]
  cases hl : lookupMod p0 d.modid with
  | none =>
    dsimp only [Option.map]
    by_cases hreq : d.required = true
    · rw [if_pos hreq, hpf, updateModEntry_map p0 _ hg]
      unfold packForm
      refine List.map_congr_left fun m _ => ?_
      by_cases hm : m.modid = r
      · rw [if_pos hm]
        simp [noteOfEvent, depOfEvent, hl, hreq, hm, List.append_assoc]
      · rw [if_neg hm]
        simp [noteOfEvent, depOfEvent, hl, hreq, Ne.symm hm]
    · rw [if_neg hreq]
      unfold packForm
      refine List.map_congr_left fun m _ => ?_
      simp [noteOfEvent, depOfEvent, hl, hreq]
  | some target =>
    dsimp only [Option.map]
    have hv : ∀ (er : List (List Char)) (de : List ModDependency),
        d.validateMod { target with errors := er, dependents := de } = d.validateMod target :=
      fun _ _ => rfl
    simp only [hv]
    by_cases hval : d.validateMod target = true
    · rw [if_neg (not_not_intro hval), hpf, updateModEntry_map p0 _ hg]
      refine List.map_congr_left fun m _ => ?_
      by_cases hm : m.modid = d.modid
      · rw [if_pos hm]
        simp [noteOfEvent, depOfEvent, hl, hval, hm, List.append_assoc]
      · rw [if_neg hm]
        simp [noteOfEvent, depOfEvent, hl, hval, Ne.symm hm]
    · rw [if_pos hval, hpf, updateModEntry_map p0 _ hg]
      rw [updateModEntry_map p0 _ (fun m => by by_cases hm : m.modid = d.modid <;> simp [hm, hg])]
      refine List.map_congr_left fun m _ => ?_
      by_cases hm : m.modid = d.modid
      · rw [if_pos hm, if_pos hm]
        simp [noteOfEvent, depOfEvent, hl, hval, hm, List.append_assoc]
      · rw [if_neg hm, if_neg hm]
        simp [noteOfEvent, depOfEvent, hl, hval, Ne.symm hm]

theorem foldl_processDepStep_packForm (p0 : List PackMod) :
    ∀ (evts : List (List Char × ModDependency)) (E : List Char → List (List Char))
      (D : List Char → List ModDependency),
      evts.foldl (fun st e => processDepStep st e.1 e.2) (packForm p0 E D) =
        packForm p0 (fun t => E t ++ evts.flatMap (noteOfEvent p0 t))
          (fun t => D t ++ evts.flatMap (depOfEvent p0 t))
  | [], E, D => by
    unfold packForm
    refine (List.map_congr_left fun m _ => ?_).symm
    simp
  | e :: rest, E, D => by
    rw [List.foldl_cons, processDepStep_packForm p0 E D e,
      foldl_processDepStep_packForm p0 rest _ _]
    unfold packForm
    refine List.map_congr_left fun m _ => ?_
    simp [List.append_assoc]

theorem validateVersionsLoop_events (p0 : List PackMod) :
    validateVersionsLoop p0 =
      (packEvents p0).foldl (fun st e => processDepStep st e.1 e.2) p0 := by
  suffices h : ∀ (l : List PackMod) (st : List PackMod),
      l.foldl (fun st2 m =>
        m.dependencies.foldl (fun st3 dep => processDepStep st3 m.modid dep) st2) st =
      (l.flatMap fun m => m.dependencies.map fun d => (m.modid, d)).foldl
        (fun st2 e => processDepStep st2 e.1 e.2) st from h p0 p0
  intro l
  induction l with
  | nil => intro st; rfl
  | cons m rest ih =>
    intro st
    rw [List.foldl_cons, List.flatMap_cons, List.foldl_append, ih, List.foldl_map]

theorem packForm_nil (p0 : List PackMod) :
    packForm p0 (fun _ => []) (fun _ => []) = p0 := by
  unfold packForm
  have h : ∀ m ∈ p0,
      ({ m with errors := m.errors ++ [], dependents := m.dependents ++ [] } : PackMod) = m := by
    intro m _
    simp
  rw [List.map_congr_left h]
  exact List.map_id' p0

/-- C6: the validation pass.  General part: `validateVersions`'s dependency
loop appends, to each mod, exactly the error notes addressed to it — a
mismatch note on the TARGET (not the requester) for every installed
dependency failing `validateMod`, a missing-dependency note on the REQUESTER
for every required dependency that is not installed — and the reciprocal
dependent edge on the target regardless of pass/fail, in pass order.
Scenario: A at 1.0 (no deps), B requiring A `[1.0,*)`, C requiring A
`[2.0,*)`: `validate` fails, A carries exactly one mismatch note citing C's
requirement, B's check passes, and A carries both reciprocal edges. -/
theorem claim_C6_validate_versions :
    (∀ p0 : List PackMod,
      validateVersionsLoop p0 = p0.map (fun m =>
        { m with errors := m.errors ++ collectNotesFor p0 m.modid,
                 dependents := m.dependents ++ collectDependentsFor p0 m.modid })) ∧
    rangeFromString "[1.0,)".data = .ok [rangeFrom10] ∧
    rangeFromString "[2.0,)".data = .ok [rangeFrom20] ∧
    verOne = parseVer "1.0" ∧
    ModDependency.validateMod ⟨"a".data, true, [rangeFrom10]⟩
      ⟨"a".data, "A".data, "a.jar".data, verOne, [], [], []⟩ = true ∧
    ModDependency.validateMod ⟨"a".data, true, [rangeFrom20]⟩
      ⟨"a".data, "A".data, "a.jar".data, verOne, [], [], []⟩ = false ∧
    (validateVersions c6Pack).1 = false ∧
    (validateVersions c6Pack).2.mods =
      [⟨"a".data, "A".data, "a.jar".data, verOne, [],
        [⟨"b".data, false, [rangeFrom10]⟩, ⟨"c".data, false, [rangeFrom20]⟩],
        [mismatchNote "c".data [rangeFrom20]]⟩,
       ⟨"b".data, "B".data, "b.jar".data, verOne, [⟨"a".data, true, [rangeFrom10]⟩], [], []⟩,
       ⟨"c".data, "C".data, "c.jar".data, verOne, [⟨"a".data, true, [rangeFrom20]⟩], [], []⟩] := by
  refine ⟨?_, rfl, rfl, rfl, rfl, rfl, rfl, rfl⟩
  intro p0
  have h := foldl_processDepStep_packForm p0 (packEvents p0) (fun _ => []) (fun _ => [])
  rw [packForm_nil] at h
  rw [validateVersionsLoop_events, h]
  unfold packForm
  refine List.map_congr_left fun m _ => ?_
  simp [collectNotesFor, collectDependentsFor]

/-! ## Suffix facts and the enable-cascade invariant (claim C10) -/

theorem jar_not_jd {s : List Char} (h : endsWithL ".jar".data s = true) :
    endsWithL ".jar.disabled".data s = false := by
  by_contra hne
  rw [Bool.not_eq_false] at hne
  simp only [endsWithL, List.isSuffixOf_iff_suffix] at h hne
  rcases List.suffix_or_suffix_of_suffix h hne with h1 | h1
  · exact absurd h1 (by decide)
  · exact absurd h1 (by decide)

theorem removeSuffix_append (t suf : List Char) : removeSuffixL suf (t ++ suf) = t := by
  have hs : suf.isSuffixOf (t ++ suf) = true := by
    rw [List.isSuffixOf_iff_suffix]
    exact List.suffix_append t suf
  simp only [removeSuffixL, hs, if_true]
  rw [List.length_append, Nat.add_sub_cancel, List.take_left]

theorem strip_jd_ends_jar {s : List Char} (h : endsWithL ".jar.disabled".data s = true) :
    endsWithL ".jar".data (removeSuffixL ".disabled".data s) = true := by
  simp only [endsWithL, List.isSuffixOf_iff_suffix] at h
  obtain ⟨t, ht⟩ := h
  have hs : s = (t ++ ".jar".data) ++ ".disabled".data := by
    rw [List.append_assoc]
    exact ht.symm
  rw [hs, removeSuffix_append]
  simp only [endsWithL, List.isSuffixOf_iff_suffix]
  exact List.suffix_append t ".jar".data

theorem stRel_refl (st : List Char → List Char) : stRel st st := fun _ => Or.inl rfl

theorem stRel_trans {a b c : List Char → List Char} (h1 : stRel a b) (h2 : stRel b c) :
    stRel a c := by
  intro y
  rcases h1 y with hb | ⟨he, hb⟩
  · rcases h2 y with hc | ⟨he2, hc⟩
    · exact Or.inl (by rw [hc, hb])
    · rw [hb] at he2 hc
      exact Or.inr ⟨he2, hc⟩
  · rcases h2 y with hc | ⟨he2, hc⟩
    · exact Or.inr ⟨he, by rw [hc, hb]⟩
    · rw [hb] at he2
      rw [jar_not_jd (strip_jd_ends_jar he)] at he2
      exact absurd he2 (by decide)

theorem enableRenameStep_rel (st : List Char → List Char) (id : List Char) :
    stRel st (enableRenameStep st id) := by
  intro y
  unfold enableRenameStep
  split
  · rename_i h
    by_cases hy : y = id
    · subst hy
      exact Or.inr ⟨h, by simp⟩
    · exact Or.inl (Function.update_noteq hy _ _)
  · exact Or.inl rfl

theorem foldl_enable_rel (pg : EnablePack) (fuel : Nat)
    (ih : ∀ st id st2, enableMod pg fuel st id = some st2 → stRel st st2) :
    ∀ (l : List (List Char)) (st st2 : List Char → List Char),
      l.foldlM (fun s d => if d ∈ pg.modIds then enableMod pg fuel s d else some s) st
        = some st2 → stRel st st2
  | [], st, st2, h => by
    have he : st = st2 := Option.some.inj h
    subst he
    exact stRel_refl st
  | d :: rest, st, st2, h => by
    rw [List.foldlM_cons] at h
    rcases Option.bind_eq_some.mp h with ⟨s1, h1, h2⟩
    have hr1 : stRel st s1 := by
      split at h1
      · exact ih _ _ _ h1
      · have he : st = s1 := Option.some.inj h1
        subst he
        exact stRel_refl st
    exact stRel_trans hr1 (foldl_enable_rel pg fuel ih rest s1 st2 h2)

theorem enableMod_rel (pg : EnablePack) :
    ∀ fuel (st : List Char → List Char) (id : List Char) st2,
      enableMod pg fuel st id = some st2 → stRel st st2
  | 0, _, _, _, h => by simp [enableMod] at h
  | fuel + 1, st, id, st2, h => by
    simp only [enableMod] at h
    dsimp only at h
    split at h
    · exact stRel_trans (enableRenameStep_rel st id)
        (foldl_enable_rel pg fuel (fun a b c hh => enableMod_rel pg fuel a b c hh)
          (pg.deps id) _ _ h)
    · have he : enableRenameStep st id = st2 := Option.some.inj h
      exact he ▸ enableRenameStep_rel st id

theorem enableMod_fix (pg : EnablePack) {fuel : Nat} {st st2 : List Char → List Char}
    {id : List Char} (h : enableMod pg fuel st id = some st2) {y : List Char}
    (hy : endsWithL ".jar".data (st y) = true) : st2 y = st y := by
  rcases enableMod_rel pg fuel st id st2 h y with h1 | ⟨he, _⟩
  · exact h1
  · rw [jar_not_jd hy] at he
    exact absurd he (by decide)

theorem enableMod_strips (pg : EnablePack) {fuel : Nat} {st st2 : List Char → List Char}
    {id : List Char} (h : enableMod pg (fuel + 1) st id = some st2)
    (hjd : endsWithL ".jar.disabled".data (st id) = true) :
    st2 id = removeSuffixL ".disabled".data (st id) := by
  simp only [enableMod] at h
  dsimp only at h
  have h1 : enableRenameStep st id id = removeSuffixL ".disabled".data (st id) := by
    simp [enableRenameStep, hjd]
  split at h
  · have hjar : endsWithL ".jar".data (enableRenameStep st id id) = true := by
      rw [h1]
      exact strip_jd_ends_jar hjd
    rcases foldl_enable_rel pg fuel (fun a b c hh => enableMod_rel pg fuel a b c hh)
        (pg.deps id) _ _ h id with h2 | ⟨he, _⟩
    · rw [h2, h1]
    · rw [jar_not_jd hjar] at he
      exact absurd he (by decide)
  · have he : enableRenameStep st id = st2 := Option.some.inj h
    rw [← he, h1]

/-- C10: `Mod.disable` appends `.disabled` to the mod filename exactly when
it ends in `.jar`, then calls `enable()` — not `disable()` — on every
installed dependent; so a dependent whose filename ends in `.jar.disabled`
has its `.disabled` suffix stripped as a side effect, and no filename changes
other than such strips (beyond the initial rename) occur. -/
theorem claim_C10_disable_enables_dependents (pg : EnablePack) (fuel : Nat)
    (st st2 : List Char → List Char) (id : List Char)
    (h : disableMod pg fuel st id = some st2)
    (hguard : disableRenameStep st id id ≠ [] ∧
      disableRenameStep st id id ≠ "[no file]".data) :
    (∀ y, disableRenameStep st id y =
        if y = id ∧ endsWithL ".jar".data (st id) = true
        then st id ++ ".disabled".data else st y) ∧
    (∀ y, st2 y = disableRenameStep st id y ∨
        (endsWithL ".jar.disabled".data (disableRenameStep st id y) = true ∧
         st2 y = removeSuffixL ".disabled".data (disableRenameStep st id y))) ∧
    (∀ d, d ∈ pg.rdeps id → d ∈ pg.modIds →
        endsWithL ".jar.disabled".data (disableRenameStep st id d) = true →
        st2 d = removeSuffixL ".disabled".data (disableRenameStep st id d)) := by
  cases fuel with
  | zero => exact absurd h (by simp [disableMod])
  | succ n =>
    simp only [disableMod] at h
    dsimp only at h
    rw [if_pos hguard] at h
    refine ⟨?_, ?_, ?_⟩
    · intro y
      simp only [disableRenameStep]
      split
      · rename_i hjar
        by_cases hy : y = id
        · subst hy
          simp [hjar]
        · simp [Function.update_noteq hy, hy]
      · rename_i hjar
        simp [hjar]
    · exact fun y => foldl_enable_rel pg n (fun a b c hh => enableMod_rel pg n a b c hh)
        (pg.rdeps id) _ _ h y
    · intro d hd hdin hjd
      obtain ⟨l1, l2, hl⟩ := List.append_of_mem hd
      rw [hl, List.foldlM_append] at h
      rcases Option.bind_eq_some.mp h with ⟨s1, hsplit, h2⟩
      rw [List.foldlM_cons, if_pos hdin] at h2
      rcases Option.bind_eq_some.mp h2 with ⟨s2, hstep, h3⟩
      have hrel1 : stRel (disableRenameStep st id) s1 :=
        foldl_enable_rel pg n (fun a b c hh => enableMod_rel pg n a b c hh) l1 _ _ hsplit
      have hs2d : s2 d = removeSuffixL ".disabled".data (disableRenameStep st id d) := by
        rcases hrel1 d with h4 | ⟨he4, h4⟩
        · cases n with
          | zero => simp [enableMod] at hstep
          | succ k =>
            rw [← h4] at hjd
            rw [enableMod_strips pg hstep hjd, h4]
        · have hjar : endsWithL ".jar".data (s1 d) = true := by
            rw [h4]
            exact strip_jd_ends_jar hjd
          rw [enableMod_fix pg hstep hjar, h4]
      have hjar2 : endsWithL ".jar".data (s2 d) = true := by
        rw [hs2d]
        exact strip_jd_ends_jar hjd
      rcases foldl_enable_rel pg n (fun a b c hh => enableMod_rel pg n a b c hh)
          l2 _ _ h3 d with h5 | ⟨he5, _⟩
      · rw [h5, hs2d]
      · rw [jar_not_jd hjar2] at he5
        exact absurd he5 (by decide)

/-- C10 witness: in the fixture pack, disabling `m` (filename `a.jar`, so the
rename fires) re-enables the installed dependent `d1` whose filename was
`b.jar.disabled`. -/
theorem claim_C10_witness :
    disableMod pg0 3 st0 "m".data = some stW ∧
    stW "d1".data =
      removeSuffixL ".disabled".data (disableRenameStep st0 "m".data "d1".data) ∧
    stW "d1".data = "b.jar".data := by
  refine ⟨rfl, ?_, by decide⟩
  exact (claim_C10_disable_enables_dependents pg0 3 st0 stW "m".data rfl
    ⟨by decide, by decide⟩).2.2 "d1".data (by decide) (by decide) (by decide)

end MCPacker
